import Mathlib

/-!
Verification development for the `nats-limiter-proxy` repository.

The development shallowly embeds the client-side protocol parser
(`internal/server/parser.go`, type `ClientMessageParser` with its fixed
4096-byte buffer and `RateLimitedWriter`) and the per-user rate-limiter
registry (`RateLimiterManager`).  Bytes are modelled as `Nat`, the
fixed-size Go buffer as the list of its live bytes (`buffer[0:bufferPos]`,
so `c.bufferPos` becomes `buffer.length`), and the third-party decoders
(`encoding/json.Unmarshal` into `map[string]interface{}`, and
`jwt.ParseWithClaims`) as function parameters producing the association
list of fields the proxy inspects.  Writes performed by the
`RateLimitedWriter` are recorded together with the token-bucket reference
that was installed at the time of the write (`none` models a `nil`
`*ratelimit.Bucket`, for which `Wait` is not called).
-/

namespace NatsProxy

/-- JSON values as far as the proxy inspects them: the code only ever asks
whether a field is a `string` (`obj["user"].(string)`, claim type
assertions), so the embedding keeps the string payload and collapses every
other JSON value into `other`. -/
inductive JVal where
  | str (s : String)
  | other
deriving DecidableEq, Repr

/-- A decoded JSON object / JWT claims map: field name to value.  Decoders
produce objects with distinct keys, and the proxy only reads fields via
lookup, so an association list is an adequate model of the Go map. -/
abbrev JObj := List (String × JVal)

/-- Go map indexing `obj[k]`: the first binding of `k`, if any. -/
def jlookup (o : JObj) (k : String) : Option JVal :=
  match o with
  | [] => none
  | (k', v) :: rest => if k' = k then some v else jlookup rest k

/-- `extractUsernameFromJWT` from `internal/server/parser.go`.  The call
`jwt.ParseWithClaims(tok, jwt.MapClaims{}, ...)` is abstracted by the
parameter `jwtClaims`: `some claims` models a non-nil token whose
`Claims` field type-asserts to `jwt.MapClaims` with those fields, and
`none` models a structurally invalid token (nil token, or claims that do
not assert).  The selection logic below is translated from the source:
a `name` claim that is a string wins, otherwise a `sub` claim that is a
string, otherwise the empty string. -/
def extractUsernameFromJWT (jwtClaims : String → Option JObj) (jwtToken : String) : String :=
  match jwtClaims jwtToken with
  | some claims =>
    match jlookup claims ("name") with
    | some (JVal.str nameStr) => nameStr
    | _ =>
      match jlookup claims ("sub") with
      | some (JVal.str subStr) => subStr
      | _ => ""
  | none => ""

/-- The parser-state constants of `internal/server/parser.go` that are
reachable from `OP_START` (the Go file declares further constants, e.g.
`MSG_PAYLOAD`, `OP_PI`, ..., but no case of the `switch` in
`ParseAndForward` ever assigns them, so they are omitted from the
embedding). -/
inductive parserState where
  | OP_START
  | OP_C | OP_CO | OP_CON | OP_CONN | OP_CONNE | OP_CONNEC | OP_CONNECT
  | CONNECT_ARG
  | OP_H | OP_HP | OP_HPU | OP_HPUB
  | OP_P | OP_PU | OP_PUB
  | OP_IGNORE
deriving DecidableEq, Repr

/-- The mutable state of a `ClientMessageParser` together with the
observable history of its collaborators:
* `state`, `as`, `drop` are the struct fields of the same names;
* `rateLimiter` is `serverWriter.rateLimiter` (the `RateLimitedWriter`'s
  bucket reference, `none` = Go `nil`; buckets are identified by the
  opaque value the manager returns);
* `buffer` is the live prefix `c.buffer[0:c.bufferPos]` of the fixed
  4096-byte array, so `c.bufferPos` is `buffer.length`;
* `users` records every invocation of the `onUserAuthenticated` callback
  in order;
* `writes` records every `RateLimitedWriter.Write` call: the bucket that
  was installed at call time (on which `Wait(len(data))` is invoked when
  non-`nil`) and the bytes written;
* `wcount` counts `Write` calls, used to model write failures. -/
structure ClientMessageParser where
  state : parserState
  as : Nat
  drop : Nat
  rateLimiter : Option Nat
  buffer : List Nat
  users : List String
  writes : List (Option Nat × List Nat)
  wcount : Nat
deriving DecidableEq, Repr

/-- The parser's external collaborators, abstracted as functions:
* `jsonDecode` models `json.Unmarshal` of the CONNECT argument into
  `map[string]interface{}` (`none` = decode error);
* `jwtClaims` models the claims map obtained through `jwt.ParseWithClaims`
  (see `extractUsernameFromJWT`);
* `getLimiter` models `rateLimiterManager.GetLimiter` (`none` = `nil`
  bucket).  The manager and the callback are the non-nil values passed by
  `NewClientMessageParser`'s callers. -/
structure Env where
  jsonDecode : List Nat → Option JObj
  jwtClaims : String → Option JObj
  getLimiter : String → Option Nat

/-- `ClientMessageParser.processUser`: fetch the user's bucket from the
manager, install it in the `RateLimitedWriter`, and invoke the
`onUserAuthenticated` callback. -/
def processUser (env : Env) (p : ClientMessageParser) (user : String) : ClientMessageParser :=
  { p with rateLimiter := env.getLimiter user, users := p.users ++ [user] }

/-- The identity resolved from a CONNECT argument, factored out of the
`CONNECT_ARG` case of `ParseAndForward`.  Mirrors the source: the slice is
only inspected when non-empty and JSON-decodable; a string `user` field is
the identity (even when empty, the source calls `processUser` with it);
otherwise a string `jwt` field is run through `extractUsernameFromJWT`
and a non-empty result is the identity; otherwise there is none. -/
def connectIdentity (jsonDecode : List Nat → Option JObj) (jwtClaims : String → Option JObj)
    (arg : List Nat) : Option String :=
  if arg.length > 0 then
    match jsonDecode arg with
    | some obj =>
      match jlookup obj ("user") with
      | some (JVal.str user) => some user
      | _ =>
        match jlookup obj ("jwt") with
        | some (JVal.str jwtToken) =>
          let user := extractUsernameFromJWT jwtClaims jwtToken
          if user ≠ "" then some user else none
        | _ => none
    | none => none
  else none

/-- The CONNECT argument slice `c.buffer[c.as : c.bufferPos-2]`, guarded
exactly as in the source (`if c.as < c.bufferPos-2`, otherwise the `arg`
slice stays nil). -/
def connectArgSlice (p : ClientMessageParser) : List Nat :=
  if p.as < p.buffer.length - 2 then (p.buffer.take (p.buffer.length - 2)).drop p.as else []

/-- Effect of the `CONNECT_ARG`/LF extraction block on the parser:
`processUser` when an identity resolves, nothing otherwise. -/
def connectResolve (env : Env) (p : ClientMessageParser) : ClientMessageParser :=
  match connectIdentity env.jsonDecode env.jwtClaims (connectArgSlice p) with
  | some user => processUser env p user
  | none => p

/-- The `switch c.state` of `ClientMessageParser.ParseAndForward`,
translated case by case (byte values: 80 `P`, 112 `p`, 85 `U`, 117 `u`,
66 `B`, 98 `b`, 72 `H`, 104 `h`, 67 `C`, 99 `c`, 79 `O`, 111 `o`,
78 `N`, 110 `n`, 69 `E`, 101 `e`, 84 `T`, 116 `t`, 32 space, 9 tab,
13 CR, 10 LF).  It runs after the byte has been appended to the buffer,
exactly as in the source. -/
def fsmStep (env : Env) (p : ClientMessageParser) (b : Nat) : ClientMessageParser :=
  match p.state with
  | parserState.OP_START =>
    if b = 80 ∨ b = 112 then { p with state := parserState.OP_P }
    else if b = 72 ∨ b = 104 then { p with state := parserState.OP_H }
    else if b = 67 ∨ b = 99 then { p with state := parserState.OP_C }
    else { p with state := parserState.OP_IGNORE }
  | parserState.OP_H =>
    if b = 80 ∨ b = 112 then { p with state := parserState.OP_HP }
    else { p with state := parserState.OP_IGNORE }
  | parserState.OP_HP =>
    if b = 85 ∨ b = 117 then { p with state := parserState.OP_HPU }
    else { p with state := parserState.OP_IGNORE }
  | parserState.OP_HPU =>
    if b = 66 ∨ b = 98 then { p with state := parserState.OP_HPUB }
    else { p with state := parserState.OP_IGNORE }
  | parserState.OP_HPUB =>
    if b = 32 ∨ b = 9 then { p with state := parserState.OP_IGNORE }
    else { p with state := parserState.OP_IGNORE }
  | parserState.OP_P =>
    if b = 85 ∨ b = 117 then { p with state := parserState.OP_PU }
    else { p with state := parserState.OP_IGNORE }
  | parserState.OP_PU =>
    if b = 66 ∨ b = 98 then { p with state := parserState.OP_PUB }
    else { p with state := parserState.OP_IGNORE }
  | parserState.OP_PUB =>
    if b = 32 ∨ b = 9 then { p with state := parserState.OP_IGNORE }
    else { p with state := parserState.OP_IGNORE }
  | parserState.OP_C =>
    if b = 79 ∨ b = 111 then { p with state := parserState.OP_CO }
    else { p with state := parserState.OP_IGNORE }
  | parserState.OP_CO =>
    if b = 78 ∨ b = 110 then { p with state := parserState.OP_CON }
    else { p with state := parserState.OP_IGNORE }
  | parserState.OP_CON =>
    if b = 78 ∨ b = 110 then { p with state := parserState.OP_CONN }
    else { p with state := parserState.OP_IGNORE }
  | parserState.OP_CONN =>
    if b = 69 ∨ b = 101 then { p with state := parserState.OP_CONNE }
    else { p with state := parserState.OP_IGNORE }
  | parserState.OP_CONNE =>
    if b = 67 ∨ b = 99 then { p with state := parserState.OP_CONNEC }
    else { p with state := parserState.OP_IGNORE }
  | parserState.OP_CONNEC =>
    if b = 84 ∨ b = 116 then { p with state := parserState.OP_CONNECT }
    else { p with state := parserState.OP_IGNORE }
  | parserState.OP_CONNECT =>
    if b = 32 ∨ b = 9 then p
    else { p with state := parserState.CONNECT_ARG, as := p.buffer.length - 1 }
  | parserState.CONNECT_ARG =>
    if b = 13 then { p with drop := 1 }
    else if b = 10 then
      if p.drop > 0 then
        { connectResolve env p with drop := 0, state := parserState.OP_START }
      else p
    else p
  | parserState.OP_IGNORE => p

/-- One `RateLimitedWriter.Write` call: when the `wOk` oracle grants the
`wcount`-th write it is recorded (tagged with the currently installed
bucket, on which the writer calls `Wait(len(data))` when non-nil) and
the call succeeds; otherwise the write fails with an error. -/
def writeB (wOk : Nat → Bool) (p : ClientMessageParser) (data : List Nat) :
    Except Unit ClientMessageParser :=
  if wOk p.wcount then
    Except.ok { p with writes := p.writes ++ [(p.rateLimiter, data)], wcount := p.wcount + 1 }
  else Except.error ()

/-- The first trailing check of the loop body:
`if c.drop == 0 && b == CR` remember the CR in `drop`. -/
def globalCR (p : ClientMessageParser) (b : Nat) : ClientMessageParser :=
  if p.drop = 0 ∧ b = 13 then { p with drop := 1 } else p

/-- The second trailing check of the loop body:
`if c.drop == 1 && b == LF` close the frame (reset `drop` and the state)
and flush the whole buffer through the rate-limited writer. -/
def boundaryFlush (wOk : Nat → Bool) (p : ClientMessageParser) (b : Nat) :
    Except Unit ClientMessageParser :=
  if p.drop = 1 ∧ b = 10 then
    match writeB wOk { p with drop := 0, state := parserState.OP_START } p.buffer with
    | Except.ok q => Except.ok { q with buffer := [] }
    | Except.error e => Except.error e
  else Except.ok p

/-- The tail of one loop iteration, after the full-buffer check: append
the byte, run the state switch, then the two global CR/LF checks. -/
def stepTail (env : Env) (wOk : Nat → Bool) (p1 : ClientMessageParser) (b : Nat) :
    Except Unit ClientMessageParser :=
  boundaryFlush wOk (globalCR (fsmStep env { p1 with buffer := p1.buffer ++ [b] } b) b) b

/-- One iteration of the `for` loop of `ParseAndForward` after a
successful `ReadByte`: flush a full buffer first (the source checks
`bufferPos >= 4096` before storing the byte), then `stepTail`. -/
def step (env : Env) (wOk : Nat → Bool) (p : ClientMessageParser) (b : Nat) :
    Except Unit ClientMessageParser :=
  if p.buffer.length ≥ 4096 then
    match writeB wOk p p.buffer with
    | Except.ok q => stepTail env wOk { q with buffer := [] } b
    | Except.error e => Except.error e
  else stepTail env wOk p b

/-- The read loop of `ParseAndForward` over the bytes that the source
reader successfully delivers (a `bufio.Reader` hands them over one at a
time, independently of how the underlying reads were chunked). -/
def procBytes (env : Env) (wOk : Nat → Bool) (p : ClientMessageParser) :
    List Nat → Except Unit ClientMessageParser
  | [] => Except.ok p
  | b :: rest =>
    match step env wOk p b with
    | Except.ok p' => procBytes env wOk p' rest
    | Except.error e => Except.error e

/-- How the byte stream ends: end-of-stream, or a read error. -/
inductive ReadEnd where
  | eof
  | readErr (e : Nat)
deriving DecidableEq, Repr

/-- The error result of a `ParseAndForward` run: a write error returned
from the `RateLimitedWriter`, or the propagated read error. -/
inductive RunErr where
  | writeErr
  | readErr (e : Nat)
deriving DecidableEq, Repr

/-- The fresh parser built by `NewClientMessageParser`: state `OP_START`,
empty buffer, and — as in the source, which constructs the
`RateLimitedWriter` without a bucket — a `nil` rate-limiter reference. -/
def NewClientMessageParser : ClientMessageParser :=
  { state := parserState.OP_START, as := 0, drop := 0, rateLimiter := none,
    buffer := [], users := [], writes := [], wcount := 0 }

/-- `ClientMessageParser.ParseAndForward` as a whole-run function: process
every delivered byte, then handle the terminal read result — `io.EOF`
flushes any buffered remainder and returns success (`nil`), any other
read error is returned as-is (without flushing). -/
def ParseAndForward (env : Env) (wOk : Nat → Bool) (input : List Nat) (term : ReadEnd) :
    Except RunErr ClientMessageParser :=
  match procBytes env wOk NewClientMessageParser input with
  | Except.error _ => Except.error RunErr.writeErr
  | Except.ok p =>
    match term with
    | ReadEnd.readErr e => Except.error (RunErr.readErr e)
    | ReadEnd.eof =>
      if p.buffer.length > 0 then
        match writeB wOk p p.buffer with
        | Except.ok q => Except.ok { q with buffer := [] }
        | Except.error _ => Except.error RunErr.writeErr
      else Except.ok p

/-- All bytes handed to the destination writer, in order. -/
def forwardedBytes (p : ClientMessageParser) : List Nat :=
  (p.writes.map Prod.snd).flatten

/-- The forwarded bytes of a successful run (`none` on a failed run). -/
def okOutput (r : Except RunErr ClientMessageParser) : Option (List Nat) :=
  match r with
  | Except.ok p => some (forwardedBytes p)
  | Except.error _ => none

/-- The callback invocations of a successful run. -/
def okUsers (r : Except RunErr ClientMessageParser) : Option (List String) :=
  match r with
  | Except.ok p => some p.users
  | Except.error _ => none

/-- The recorded writer calls of a successful run. -/
def okWrites (r : Except RunErr ClientMessageParser) : Option (List (Option Nat × List Nat)) :=
  match r with
  | Except.ok p => some p.writes
  | Except.error _ => none

/-! ## The rate-limiter registry (`RateLimiterManager`)

`juju/ratelimit` buckets are modelled by their observable construction
data: `NewBucketWithRate(float64(bandwidth), bandwidth)` yields a bucket
with fill rate and capacity equal to `bandwidth`; the `id` field models
pointer identity (each `NewBucketWithRate` call yields a fresh pointer,
modelled by a counter in the manager). -/

/-- A `*ratelimit.Bucket` as observed by this code base: its construction
parameters plus an allocation identity standing for the pointer. -/
structure Bucket where
  id : Nat
  rate : Int
  capacity : Int
deriving DecidableEq, Repr

/-- The `Config` struct: `default_bandwidth` and the `users` map
(a nil Go map behaves as an empty lookup, hence the association list). -/
structure Config where
  DefaultBandwidth : Int
  Users : List (String × Int)
deriving DecidableEq, Repr

/-- Go map indexing for string-keyed association lists. -/
def alookup {α : Type} : List (String × α) → String → Option α
  | [], _ => none
  | (k, v) :: rest, u => if k = u then some v else alookup rest u

/-- `RateLimiterManager.getBandwidthForUser`: the user's configured
bandwidth, or the default when absent. -/
def getBandwidthForUser (cfg : Config) (username : String) : Int :=
  match alookup cfg.Users username with
  | some bw => bw
  | none => cfg.DefaultBandwidth

/-- The `RateLimiterManager` state: the `limiters` map, the immutable
config, and the allocation counter for fresh buckets. -/
structure RateLimiterManager where
  limiters : List (String × Bucket)
  config : Config
  nextId : Nat
deriving DecidableEq, Repr

/-- `NewRateLimiterManager`. -/
def NewRateLimiterManager (cfg : Config) : RateLimiterManager :=
  { limiters := [], config := cfg, nextId := 0 }

/-- `RateLimiterManager.GetLimiter`, whole-call view (the read-locked
lookup, the write-locked double check and the creation collapse into one
atomic step when calls are sequential; the interleaved view used for the
concurrency claim is `taskStep` below).  Empty usernames short-circuit to
a nil bucket; a hit returns the stored bucket; a miss creates a bucket
sized by `getBandwidthForUser`, stores and returns it. -/
def GetLimiter (rlm : RateLimiterManager) (username : String) :
    Option Bucket × RateLimiterManager :=
  if username = "" then (none, rlm)
  else
    match alookup rlm.limiters username with
    | some limiter => (some limiter, rlm)
    | none =>
      let bandwidth := getBandwidthForUser rlm.config username
      let limiter : Bucket := { id := rlm.nextId, rate := bandwidth, capacity := bandwidth }
      (some limiter,
        { rlm with limiters := rlm.limiters ++ [(username, limiter)], nextId := rlm.nextId + 1 })

/-- `RateLimiterManager.RemoveLimiter`: delete the username's entry. -/
def RemoveLimiter (rlm : RateLimiterManager) (username : String) : RateLimiterManager :=
  { rlm with limiters := rlm.limiters.filter (fun kv => kv.fst ≠ username) }

/-- A registry call, for reasoning about call sequences. -/
inductive RegOp where
  | get (u : String)
  | remove (u : String)
deriving DecidableEq, Repr

/-- Apply one registry call (dropping `GetLimiter`'s return value). -/
def applyOp (rlm : RateLimiterManager) : RegOp → RateLimiterManager
  | RegOp.get u => (GetLimiter rlm u).snd
  | RegOp.remove u => RemoveLimiter rlm u

/-- Run a sequence of registry calls. -/
def runReg (rlm : RateLimiterManager) (ops : List RegOp) : RateLimiterManager :=
  ops.foldl applyOp rlm

/-! ## Interleaved view of `GetLimiter` for the creation race

`GetLimiter` body, split at its lock boundaries: the read-locked lookup
(`RLock`/`RUnlock`) and the write-locked double-check-and-create
(`Lock`/`Unlock`) are each atomic (the mutex serialises them), while
between the two sections any other task may run.  Two tasks calling
`GetLimiter` for the same username are therefore modelled by
interleaving these atomic sections in an arbitrary schedule. -/

/-- A task's position inside `GetLimiter`: before the read-locked lookup,
between the two locked sections after a miss, or returned. -/
inductive TaskPc where
  | start
  | missed
  | done (res : Option Bucket)
deriving DecidableEq, Repr

/-- One atomic section of `GetLimiter username` executed against the
shared manager.  `start`: the empty-username short-circuit (it runs
before any lock) or the read-locked lookup.  `missed`: the write-locked
double check, creating and inserting the bucket only if the re-check
still misses. -/
def taskStep (username : String) (rlm : RateLimiterManager) :
    TaskPc → TaskPc × RateLimiterManager
  | TaskPc.start =>
    if username = "" then (TaskPc.done none, rlm)
    else
      match alookup rlm.limiters username with
      | some limiter => (TaskPc.done (some limiter), rlm)
      | none => (TaskPc.missed, rlm)
  | TaskPc.missed =>
    match alookup rlm.limiters username with
    | some limiter => (TaskPc.done (some limiter), rlm)
    | none =>
      let bandwidth := getBandwidthForUser rlm.config username
      let limiter : Bucket := { id := rlm.nextId, rate := bandwidth, capacity := bandwidth }
      (TaskPc.done (some limiter),
        { rlm with limiters := rlm.limiters ++ [(username, limiter)], nextId := rlm.nextId + 1 })
  | TaskPc.done r => (TaskPc.done r, rlm)

/-- Two concurrent `GetLimiter` calls: the shared manager plus each
task's program counter. -/
structure ConcSys where
  rlm : RateLimiterManager
  pc1 : TaskPc
  pc2 : TaskPc
deriving DecidableEq, Repr

/-- Let the scheduled task run its next atomic section. -/
def concStep (username : String) (s : ConcSys) (who : Bool) : ConcSys :=
  if who then
    let r := taskStep username s.rlm s.pc1
    { s with pc1 := r.fst, rlm := r.snd }
  else
    let r := taskStep username s.rlm s.pc2
    { s with pc2 := r.fst, rlm := r.snd }

/-- Run both tasks under an arbitrary schedule, from a fresh manager. -/
def concRun (username : String) (cfg : Config) (sched : List Bool) : ConcSys :=
  sched.foldl (concStep username)
    { rlm := NewRateLimiterManager cfg, pc1 := TaskPc.start, pc2 := TaskPc.start }

/-- The bucket the race's single creation step constructs: allocation 0,
sized by `getBandwidthForUser`. -/
def bwBucket (cfg : Config) (u : String) : Bucket :=
  { id := 0, rate := getBandwidthForUser cfg u, capacity := getBandwidthForUser cfg u }

/-- A task that has not yet returned from `GetLimiter`. -/
def pcLive (pc : TaskPc) : Prop :=
  pc = TaskPc.start ∨ pc = TaskPc.missed

/-- A task that, if it has returned, returned the shared bucket `b`. -/
def pcShares (b : Bucket) (pc : TaskPc) : Prop :=
  pc = TaskPc.start ∨ pc = TaskPc.missed ∨ pc = TaskPc.done (some b)

/-- Inductive invariant of the two-task `GetLimiter` race for a fixed
non-empty username: either no bucket exists yet and neither task has
returned, or exactly one shared bucket exists and every returned task
returned that bucket. -/
def concInv (u : String) (cfg : Config) (s : ConcSys) : Prop :=
  s.rlm.config = cfg ∧
  ((s.rlm.limiters = [] ∧ s.rlm.nextId = 0 ∧ pcLive s.pc1 ∧ pcLive s.pc2) ∨
   (s.rlm.limiters = [(u, bwBucket cfg u)] ∧ s.rlm.nextId = 1 ∧
     pcShares (bwBucket cfg u) s.pc1 ∧ pcShares (bwBucket cfg u) s.pc2))

/-- Every stored bucket is sized by the configuration entry for its key
(or the default), and the manager still carries the configuration it was
built from. -/
def sizedOk (cfg : Config) (rlm : RateLimiterManager) : Prop :=
  rlm.config = cfg ∧
  ∀ p ∈ rlm.limiters, p.snd.rate = getBandwidthForUser cfg p.fst ∧
    p.snd.capacity = getBandwidthForUser cfg p.fst

/-! ## The `NATSProxyParser` of the earlier parser revision

This parser (the `psMsgPayload` revision) is embedded with a nil
`LogFunc`, which in the source disables only logging and the
CONNECT-username caching used for logging, not parsing or forwarding.
Its writer is modelled as infallible. -/

/-- `bytes.Fields` byte-class: ASCII whitespace as recognised by
`unicode.IsSpace` (space, tab, newline, carriage return, vertical tab,
form feed). -/
def isGoSpace (b : Nat) : Bool :=
  b = 32 || b = 9 || b = 10 || b = 13 || b = 11 || b = 12

/-- Accumulator worker for `fieldsGo`. -/
def fieldsAux : List Nat → List Nat → List (List Nat)
  | [], acc => if acc = [] then [] else [acc.reverse]
  | b :: rest, acc =>
    if isGoSpace b then
      if acc = [] then fieldsAux rest [] else acc.reverse :: fieldsAux rest []
    else fieldsAux rest (b :: acc)

/-- `bytes.Fields`: split around runs of whitespace. -/
def fieldsGo (bs : List Nat) : List (List Nat) := fieldsAux bs []

/-- Digit-run evaluator for `atoiGo`. -/
def digitsValAux : List Nat → Int → Option Int
  | [], acc => some acc
  | b :: rest, acc =>
    if 48 ≤ b ∧ b ≤ 57 then digitsValAux rest (acc * 10 + (Int.ofNat b - 48)) else none

/-- Value of a non-empty all-digit run. -/
def digitsVal : List Nat → Option Int
  | [] => none
  | bs => digitsValAux bs 0

/-- `strconv.Atoi` on the byte strings this parser feeds it: optional
sign followed by decimal digits (overflow is irrelevant at the sizes
exercised here). -/
def atoiGo (bs : List Nat) : Option Int :=
  match bs with
  | [] => none
  | b :: rest =>
    if b = 43 then digitsVal rest
    else if b = 45 then (digitsVal rest).map (fun n => -n)
    else digitsVal bs

/-- The minimal parser-state constants of the `NATSProxyParser`
revision. -/
inductive psState where
  | psOpStart | psOpPub | psOpPubSpc | psPubArg
  | psOpHPub | psOpHPubSpc | psHPubArg | psMsgPayload
deriving DecidableEq, Repr

/-- `NATSProxyParser` state plus the write history (`argBuf`, `msgBuf`
and `drop` are declared in the source but never used by
`ParseAndForward`; `payload` is stored after the `size >= 0` check, hence
a `Nat`). -/
structure NATSProxyParser where
  state : psState
  as : Nat
  payload : Nat
  buf : List Nat
  writes : List (List Nat)
deriving DecidableEq, Repr

/-- One loop iteration of `NATSProxyParser.ParseAndForward` (with a nil
`LogFunc`): append the byte, then the state switch, including the
`psMsgPayload` completion test `len(buf) >= p.as + p.payload + 2`. -/
def npStep (p : NATSProxyParser) (b : Nat) : NATSProxyParser :=
  let p := { p with buf := p.buf ++ [b] }
  match p.state with
  | psState.psOpStart =>
    if b = 80 ∨ b = 112 then { p with state := psState.psOpPub, as := p.buf.length - 1 }
    else if b = 72 ∨ b = 104 then { p with state := psState.psOpHPub, as := p.buf.length - 1 }
    else if b = 10 then { p with writes := p.writes ++ [p.buf], buf := [] }
    else p
  | psState.psOpPub =>
    if b = 85 ∨ b = 117 then { p with state := psState.psOpPubSpc }
    else { p with state := psState.psOpStart }
  | psState.psOpPubSpc =>
    if b = 32 ∨ b = 9 then p
    else { p with state := psState.psPubArg, as := p.buf.length - 1 }
  | psState.psPubArg =>
    if b = 10 then
      let line := (p.buf.take (p.buf.length - 1)).drop p.as
      let parts := fieldsGo line
      if parts.length < 2 then { p with state := psState.psOpStart }
      else
        match atoiGo (parts.getLastD []) with
        | none => { p with state := psState.psOpStart }
        | some size =>
          if size < 0 then { p with state := psState.psOpStart }
          else { p with payload := size.toNat, state := psState.psMsgPayload }
    else p
  | psState.psOpHPub =>
    if b = 80 ∨ b = 112 then { p with state := psState.psOpHPubSpc }
    else { p with state := psState.psOpStart }
  | psState.psOpHPubSpc =>
    if b = 32 ∨ b = 9 then p
    else { p with state := psState.psHPubArg, as := p.buf.length - 1 }
  | psState.psHPubArg =>
    if b = 10 then
      let line := (p.buf.take (p.buf.length - 1)).drop p.as
      let parts := fieldsGo line
      if parts.length < 3 then { p with state := psState.psOpStart }
      else
        match atoiGo (parts.getLastD []) with
        | none => { p with state := psState.psOpStart }
        | some size =>
          if size < 0 then { p with state := psState.psOpStart }
          else { p with payload := size.toNat, state := psState.psMsgPayload }
    else p
  | psState.psMsgPayload =>
    if p.buf.length ≥ p.as + p.payload + 2 then
      { p with writes := p.writes ++ [p.buf], buf := [], state := psState.psOpStart }
    else p

/-- A fresh `NATSProxyParser` (zero value / after `Reset`). -/
def npNew : NATSProxyParser :=
  { state := psState.psOpStart, as := 0, payload := 0, buf := [], writes := [] }

/-- `NATSProxyParser.ParseAndForward` until end-of-stream (on `io.EOF`
the source returns nil without flushing the residual buffer). -/
def npRun (input : List Nat) : NATSProxyParser :=
  input.foldl npStep npNew

/-! ## Concrete fixtures for counterexample and witness runs -/

/-- Byte list of an ASCII string fixture. -/
def asciiBytes (s : String) : List Nat := s.data.map Char.toNat

/-- A writer that never fails. -/
def alwaysOk : Nat → Bool := fun _ => true

/-- The bucket the manager handed out for the most recently resolved
identity (`none` before any resolution). -/
def lastLimiter (env : Env) (users : List String) : Option Nat :=
  match users.getLast? with
  | some u => env.getLimiter u
  | none => none

/-- The fifteen bytes of a JSON object with a single field `user` whose
value is the string `evil`. -/
def evilJson : List Nat := asciiBytes ("\x7b\"user\":\"evil\"\x7d")

/-- A compact unsigned JWT: header alg `none`, claims a JSON object with
a single field `name` whose value is the empty string. -/
def jwtTok : String := "eyJ0eXAiOiJKV1QiLCJhbGciOiJub25lIn0.eyJuYW1lIjoiIn0."

/-- Bytes of a JSON object with a single field `jwt` holding `jwtTok`. -/
def jwtJson : List Nat := asciiBytes ("\x7b\"jwt\":\"" ++ jwtTok ++ "\"\x7d")

/-- Table instantiation of the decoder parameters, agreeing with the real
decoders on every input exercised below: `evilJson` decodes to an object
whose `user` field is the string `evil`; `jwtJson` decodes to an object
whose `jwt` field is the token `jwtTok`, and the claims segment of
`jwtTok` base64-decodes to an object whose `name` claim is the empty
string; every other byte string is treated as undecodable.  The manager
hands out bucket `1` for every non-empty username and nil for the empty
one. -/
def envTab : Env :=
  { jsonDecode := fun arg =>
      if arg = evilJson then some [("user", JVal.str ("evil"))]
      else if arg = jwtJson then some [("jwt", JVal.str (jwtTok))]
      else none,
    jwtClaims := fun tok => if tok = jwtTok then some [("name", JVal.str (""))] else none,
    getLimiter := fun u => if u = "" then none else some 1 }

/-- The eight bytes of the keyword `CONNECT` followed by a space. -/
def connectPrefix : List Nat := asciiBytes ("CONNECT ")

/-- A lone PING frame. -/
def pingInput : List Nat := asciiBytes ("PING\r\n")

/-- A PUB frame with subject `a` and declared payload size 23, whose
23-byte binary payload spells a CONNECT control line for user `evil`. -/
def pubEvilInput : List Nat :=
  asciiBytes ("PUB a 23\r\n") ++ connectPrefix ++ evilJson ++ asciiBytes ("\r\n")

/-- The four bytes `A`, CR, `B`, LF: a CR and an LF separated by an
intervening byte. -/
def crSplitInput : List Nat := asciiBytes ("A\rB\n")

/-- A PUB frame with subject `a`, declared payload size 3 and payload
`XYZ`, for the `psMsgPayload` countdown of the `NATSProxyParser`. -/
def pub3Input : List Nat := asciiBytes ("PUB a 3\r\nXYZ\r\n")

/-- A 4121-byte CONNECT control line: the CONNECT keyword, 4096 filler
bytes `a`, then `evilJson`, then CR LF.  It overflows the 4096-byte
parser buffer by exactly 25 bytes. -/
def longConnectInput : List Nat :=
  connectPrefix ++ List.replicate 4096 97 ++ evilJson ++ [13, 10]

/-- The configuration used by concrete registry runs (the repository's
sample configuration: 10 MiB/s default, alice 5 MiB/s, bob 2 MiB/s). -/
def cfgFix : Config :=
  { DefaultBandwidth := 10485760, Users := [("alice", 5242880), ("bob", 2097152)] }

/-- The bucket reference of a successful run. -/
def okLimiter (r : Except RunErr ClientMessageParser) : Option (Option Nat) :=
  match r with
  | Except.ok p => some p.rateLimiter
  | Except.error _ => none

/-- The loop-final state of the `longConnectInput` run: one full-buffer
flush of the first 4096 bytes happened mid-line (unmetered), the
remaining 25 bytes of the line are still buffered, and the stale
argument-offset window of the post-flush buffer decoded as a CONNECT
object, resolving `evil` and installing its bucket. -/
def longConnectFinal : ClientMessageParser :=
  { state := parserState.OP_START, as := 8, drop := 0, rateLimiter := some 1,
    buffer := ([97] ++ List.replicate 7 97) ++ evilJson ++ [13, 10],
    users := ["evil"],
    writes := [(none, (connectPrefix ++ [97]) ++ List.replicate 4087 97)], wcount := 1 }

/-- A `CONNECT_ARG` parser state at argument offset 8 with empty
histories and no bucket. -/
def caState (dr : Nat) (buf : List Nat) : ClientMessageParser :=
  { state := parserState.CONNECT_ARG, as := 8, drop := dr, rateLimiter := none, buffer := buf,
    users := [], writes := [], wcount := 0 }

/-! ## Plumbing lemmas for the `ClientMessageParser` loop -/

/-- A successful `Write` call appends exactly one tagged record. -/
theorem writeB_eq {wOk : Nat → Bool} {p q : ClientMessageParser} {d : List Nat}
    (h : writeB wOk p d = Except.ok q) :
    q = { p with writes := p.writes ++ [(p.rateLimiter, d)], wcount := p.wcount + 1 } := by
  unfold writeB at h
  split at h
  · cases h; rfl
  · cases h

/-- With an infallible writer, `Write` always succeeds. -/
theorem writeB_alwaysOk (p : ClientMessageParser) (d : List Nat) :
    writeB alwaysOk p d =
      Except.ok { p with writes := p.writes ++ [(p.rateLimiter, d)], wcount := p.wcount + 1 } :=
  rfl

/-- `processUser` touches only the bucket reference and the callback
history. -/
theorem processUser_plumb (env : Env) (p : ClientMessageParser) (user : String) :
    (processUser env p user).buffer = p.buffer ∧ (processUser env p user).writes = p.writes ∧
    (processUser env p user).wcount = p.wcount ∧ (processUser env p user).users = p.users ++ [user] ∧
    (processUser env p user).rateLimiter = env.getLimiter user := by
  simp [processUser]

/-- The CONNECT extraction block only ever performs `processUser`. -/
theorem connectResolve_plumb (env : Env) (p : ClientMessageParser) :
    (connectResolve env p).buffer = p.buffer ∧ (connectResolve env p).writes = p.writes ∧
    (connectResolve env p).wcount = p.wcount ∧
    (((connectResolve env p).users = p.users ∧
        (connectResolve env p).rateLimiter = p.rateLimiter) ∨
      (∃ u, (connectResolve env p).users = p.users ++ [u] ∧
        (connectResolve env p).rateLimiter = env.getLimiter u)) := by
  unfold connectResolve
  cases connectIdentity env.jsonDecode env.jwtClaims (connectArgSlice p) with
  | none => simp
  | some u => exact ⟨rfl, rfl, rfl, Or.inr ⟨u, rfl, rfl⟩⟩

/-- The state switch never touches the buffer or the write history, and
touches the bucket reference and callback history only by resolving an
identity, in which case it also clears `drop`. -/
theorem fsmStep_plumb (env : Env) (p : ClientMessageParser) (b : Nat) :
    (fsmStep env p b).buffer = p.buffer ∧ (fsmStep env p b).writes = p.writes ∧
    (fsmStep env p b).wcount = p.wcount ∧
    (((fsmStep env p b).users = p.users ∧ (fsmStep env p b).rateLimiter = p.rateLimiter) ∨
      (∃ u, (fsmStep env p b).users = p.users ++ [u] ∧
        (fsmStep env p b).rateLimiter = env.getLimiter u ∧ (fsmStep env p b).drop = 0)) := by
  obtain ⟨st, a, dr, rl, buf, us, ws, wc⟩ := p
  obtain ⟨hb, hw, hc, hur⟩ :=
    connectResolve_plumb env ⟨st, a, dr, rl, buf, us, ws, wc⟩
  cases st <;> dsimp only [fsmStep] <;> (try split_ifs) <;>
    first
      | exact ⟨rfl, rfl, rfl, Or.inl ⟨rfl, rfl⟩⟩
      | (refine ⟨hb, hw, hc, ?_⟩
         rcases hur with ⟨hu, hr⟩ | ⟨u, hu, hr⟩
         · exact Or.inl ⟨hu, hr⟩
         · exact Or.inr ⟨u, hu, hr, rfl⟩)

/-- The CR check only touches `drop`. -/
theorem globalCR_plumb (p : ClientMessageParser) (b : Nat) :
    (globalCR p b).buffer = p.buffer ∧ (globalCR p b).writes = p.writes ∧
    (globalCR p b).wcount = p.wcount ∧ (globalCR p b).users = p.users ∧
    (globalCR p b).rateLimiter = p.rateLimiter := by
  unfold globalCR
  split_ifs <;> exact ⟨rfl, rfl, rfl, rfl, rfl⟩

/-- Forwarded bytes depend only on the write history. -/
theorem forwardedBytes_eq_of_writes {p q : ClientMessageParser} (h : p.writes = q.writes) :
    forwardedBytes p = forwardedBytes q := by
  unfold forwardedBytes
  rw [h]

/-- The boundary check does nothing unless `drop` is set and the byte is
an LF. -/
theorem boundaryFlush_of_neg {wOk : Nat → Bool} {p : ClientMessageParser} {b : Nat}
    (h : ¬(p.drop = 1 ∧ b = 10)) : boundaryFlush wOk p b = Except.ok p := by
  unfold boundaryFlush
  exact if_neg h

/-- A successful boundary check moves the buffer in front of at most one
appended write tagged with the entry bucket, and touches nothing else
observable. -/
theorem boundaryFlush_spec {wOk : Nat → Bool} {p p' : ClientMessageParser} {b : Nat}
    (h : boundaryFlush wOk p b = Except.ok p') :
    forwardedBytes p' ++ p'.buffer = forwardedBytes p ++ p.buffer ∧
    p'.users = p.users ∧ p'.rateLimiter = p.rateLimiter ∧
    (∃ t, p'.writes = p.writes ++ t ∧ ∀ w ∈ t, w.fst = p.rateLimiter) := by
  unfold boundaryFlush at h
  split_ifs at h
  · split at h
    · next q hq =>
        cases h
        have hqe := writeB_eq hq
        subst hqe
        refine ⟨?_, rfl, rfl, ⟨[(p.rateLimiter, p.buffer)], rfl, ?_⟩⟩
        · simp [forwardedBytes]
        · intro w hw
          rw [List.mem_singleton.mp hw]
    · cases h
  · cases h
    exact ⟨rfl, rfl, rfl, ⟨[], by simp, by simp⟩⟩

/-- Master lemma for the loop-body tail: a successful iteration appends
the byte to the live byte sequence (forwarded bytes followed by the
buffer), extends the callback history by at most one resolved identity
(swapping the bucket reference to that identity's bucket), and appends
only writes tagged with the bucket reference held on entry. -/
theorem stepTail_spec {env : Env} {wOk : Nat → Bool} {p p' : ClientMessageParser} {b : Nat}
    (h : stepTail env wOk p b = Except.ok p') :
    forwardedBytes p' ++ p'.buffer = forwardedBytes p ++ p.buffer ++ [b] ∧
    ((p'.users = p.users ∧ p'.rateLimiter = p.rateLimiter) ∨
      (∃ u, p'.users = p.users ++ [u] ∧ p'.rateLimiter = env.getLimiter u)) ∧
    (∃ t, p'.writes = p.writes ++ t ∧ ∀ w ∈ t, w.fst = p.rateLimiter) := by
  unfold stepTail at h
  obtain ⟨f2b, f2w, f2c, f2ur⟩ := fsmStep_plumb env { p with buffer := p.buffer ++ [b] } b
  obtain ⟨g3b, g3w, g3c, g3u, g3r⟩ :=
    globalCR_plumb (fsmStep env { p with buffer := p.buffer ++ [b] } b) b
  obtain ⟨bfl, bfu, bfr, t, bft, bftag⟩ := boundaryFlush_spec h
  constructor
  · rw [bfl, g3b]
    have hfw : forwardedBytes (globalCR (fsmStep env { p with buffer := p.buffer ++ [b] } b) b)
        = forwardedBytes p :=
      forwardedBytes_eq_of_writes (by rw [g3w, f2w])
    rw [hfw, f2b]
    simp
  constructor
  · rcases f2ur with ⟨hu, hr⟩ | ⟨u, hu, hr, _⟩
    · exact Or.inl ⟨by rw [bfu, g3u, hu], by rw [bfr, g3r, hr]⟩
    · exact Or.inr ⟨u, by rw [bfu, g3u, hu], by rw [bfr, g3r, hr]⟩
  · rcases f2ur with ⟨hu, hr⟩ | ⟨u, hu, hr, hd⟩
    · exact ⟨t, by rw [bft, g3w, f2w], fun w hw => by rw [bftag w hw, g3r, hr]⟩
    · -- an identity was resolved, so `drop` is 0 after the switch and,
      -- because a CR is not an LF, the boundary flush cannot fire
      have hnof : ¬((globalCR (fsmStep env { p with buffer := p.buffer ++ [b] } b) b).drop = 1
          ∧ b = 10) := by
        unfold globalCR
        split_ifs with hcr
        · rintro ⟨-, hb10⟩
          rw [hb10] at hcr
          omega
        · rw [hd]
          rintro ⟨h01, -⟩
          omega
      rw [boundaryFlush_of_neg hnof] at h
      cases h
      exact ⟨[], by rw [g3w, f2w, List.append_nil], by simp⟩

/-- Master lemma for a full loop iteration (`stepTail_spec` preceded by
the full-buffer flush). -/
theorem step_spec {env : Env} {wOk : Nat → Bool} {p p' : ClientMessageParser} {b : Nat}
    (h : step env wOk p b = Except.ok p') :
    forwardedBytes p' ++ p'.buffer = forwardedBytes p ++ p.buffer ++ [b] ∧
    ((p'.users = p.users ∧ p'.rateLimiter = p.rateLimiter) ∨
      (∃ u, p'.users = p.users ++ [u] ∧ p'.rateLimiter = env.getLimiter u)) ∧
    (∃ t, p'.writes = p.writes ++ t ∧ ∀ w ∈ t, w.fst = p.rateLimiter) := by
  unfold step at h
  split_ifs at h
  · split at h
    · next q hq =>
        have hqe := writeB_eq hq
        subst hqe
        obtain ⟨hl, hur, t, ht, htag⟩ := stepTail_spec h
        refine ⟨?_, ?_, ⟨(p.rateLimiter, p.buffer) :: t, ?_, ?_⟩⟩
        · rw [hl]; simp [forwardedBytes]
        · exact hur
        · rw [ht]; simp
        · intro w hw
          rcases List.mem_cons.mp hw with hw | hw
          · rw [hw]
          · exact htag w hw
    · cases h
  · exact stepTail_spec h

/-- With an infallible writer the boundary check always succeeds. -/
theorem boundaryFlush_alwaysOk (p : ClientMessageParser) (b : Nat) :
    ∃ p', boundaryFlush alwaysOk p b = Except.ok p' := by
  unfold boundaryFlush
  split_ifs
  · rw [writeB_alwaysOk]
    exact ⟨_, rfl⟩
  · exact ⟨p, rfl⟩

/-- With an infallible writer the loop-body tail always succeeds. -/
theorem stepTail_alwaysOk (env : Env) (p : ClientMessageParser) (b : Nat) :
    ∃ p', stepTail env alwaysOk p b = Except.ok p' := by
  unfold stepTail
  exact boundaryFlush_alwaysOk _ _

/-- With an infallible writer every loop iteration succeeds. -/
theorem step_alwaysOk (env : Env) (p : ClientMessageParser) (b : Nat) :
    ∃ p', step env alwaysOk p b = Except.ok p' := by
  unfold step
  split_ifs
  · rw [writeB_alwaysOk]
    exact stepTail_alwaysOk _ _ _
  · exact stepTail_alwaysOk _ _ _

/-- The loop distributes over concatenation of the input. -/
theorem procBytes_append (env : Env) (wOk : Nat → Bool) (p : ClientMessageParser)
    (xs ys : List Nat) :
    procBytes env wOk p (xs ++ ys) =
      match procBytes env wOk p xs with
      | Except.ok q => procBytes env wOk q ys
      | Except.error e => Except.error e := by
  induction xs generalizing p with
  | nil => simp [procBytes]
  | cons x xs ih =>
    simp only [List.cons_append, procBytes]
    cases step env wOk p x with
    | ok q => exact ih q
    | error e => rfl

/-- Peel one successful step off the front of a loop run. -/
theorem procBytes_cons_ok {env : Env} {wOk : Nat → Bool} {p q p' : ClientMessageParser}
    {b : Nat} {bs : List Nat} (h1 : step env wOk p b = Except.ok q)
    (h2 : procBytes env wOk q bs = Except.ok p') :
    procBytes env wOk p (b :: bs) = Except.ok p' := by
  simp only [procBytes]
  rw [h1]
  exact h2

/-- The loop appends exactly the consumed bytes to the live byte
sequence (forwarded bytes followed by the residual buffer). -/
theorem procBytes_live {env : Env} {wOk : Nat → Bool} {p p' : ClientMessageParser}
    {input : List Nat} (h : procBytes env wOk p input = Except.ok p') :
    forwardedBytes p' ++ p'.buffer = forwardedBytes p ++ p.buffer ++ input := by
  induction input generalizing p with
  | nil =>
    cases h
    simp
  | cons b rest ih =>
    unfold procBytes at h
    cases hs : step env wOk p b with
    | ok q =>
      rw [hs] at h
      have hrest := ih h
      obtain ⟨hl, -, -⟩ := step_spec hs
      rw [hrest, hl]
      simp
    | error e =>
      rw [hs] at h
      cases h

/-- Invariant-lifting along the loop. -/
theorem procBytes_inv {env : Env} {wOk : Nat → Bool} {P : ClientMessageParser → Prop}
    (hstep : ∀ p b p', step env wOk p b = Except.ok p' → P p → P p') :
    ∀ {input : List Nat} {p p' : ClientMessageParser},
      procBytes env wOk p input = Except.ok p' → P p → P p' := by
  intro input
  induction input with
  | nil =>
    intro p p' h hp
    cases h
    exact hp
  | cons b rest ih =>
    intro p p' h hp
    unfold procBytes at h
    cases hs : step env wOk p b with
    | ok q =>
      rw [hs] at h
      exact ih h (hstep p b q hs hp)
    | error e =>
      rw [hs] at h
      cases h

/-- With an infallible writer the loop always succeeds. -/
theorem procBytes_alwaysOk (env : Env) :
    ∀ (input : List Nat) (p : ClientMessageParser),
      ∃ p', procBytes env alwaysOk p input = Except.ok p' := by
  intro input
  induction input with
  | nil => exact fun p => ⟨p, rfl⟩
  | cons b rest ih =>
    intro p
    obtain ⟨q, hq⟩ := step_alwaysOk env p b
    obtain ⟨p', hp⟩ := ih q
    exact ⟨p', by simp [procBytes, hq, hp]⟩

/-- C2: for every finite input byte sequence and every chunking of it
into underlying reads (the `bufio.Reader` on top of the source delivers
the concatenation of the chunks one byte at a time, so a chunking —
including one byte per read — enters the run only through the
concatenation `chunks.flatten`), a run of `ParseAndForward` that ends at
end-of-stream has written to the destination exactly the bytes read from
the source, in order, with no duplication and no truncation — also when a
single frame is longer than the fixed 4096-byte internal buffer, since
the statement quantifies over all inputs. -/
theorem c2_forward_exact (env : Env) (chunks : List (List Nat)) :
    okOutput (ParseAndForward env alwaysOk chunks.flatten ReadEnd.eof) = some chunks.flatten := by
  obtain ⟨p, hp⟩ := procBytes_alwaysOk env chunks.flatten NewClientMessageParser
  have hlive : forwardedBytes p ++ p.buffer = chunks.flatten := by
    simpa [NewClientMessageParser, forwardedBytes] using procBytes_live hp
  unfold ParseAndForward
  rw [hp]
  dsimp only
  by_cases hb : p.buffer.length > 0
  · rw [if_pos hb, writeB_alwaysOk]
    simpa [okOutput, forwardedBytes] using hlive
  · rw [if_neg hb]
    have hnil : p.buffer = [] := List.eq_nil_of_length_eq_zero (by omega)
    rw [hnil, List.append_nil] at hlive
    simp [okOutput, hlive]

/-- C9: `ParseAndForward` returns success (a nil error) precisely when
the source reader reaches end-of-stream: with a healthy writer, an
end-of-stream run succeeds and a run ending in any other read error
returns exactly that error; and conversely a successful run is only ever
produced by an end-of-stream, never by a read or write failure. -/
theorem c9_eof_success (env : Env) (input : List Nat) (e : Nat) :
    (∃ p, ParseAndForward env alwaysOk input ReadEnd.eof = Except.ok p) ∧
    ParseAndForward env alwaysOk input (ReadEnd.readErr e) = Except.error (RunErr.readErr e) ∧
    (∀ (wOk : Nat → Bool) (term : ReadEnd) (r : ClientMessageParser),
      ParseAndForward env wOk input term = Except.ok r → term = ReadEnd.eof) := by
  obtain ⟨p, hp⟩ := procBytes_alwaysOk env input NewClientMessageParser
  refine ⟨?_, ?_, ?_⟩
  · unfold ParseAndForward
    rw [hp]
    dsimp only
    by_cases hb : p.buffer.length > 0
    · rw [if_pos hb, writeB_alwaysOk]
      exact ⟨_, rfl⟩
    · rw [if_neg hb]
      exact ⟨p, rfl⟩
  · unfold ParseAndForward
    rw [hp]
  · intro wOk term r h
    unfold ParseAndForward at h
    cases hq : procBytes env wOk NewClientMessageParser input with
    | error e2 =>
      rw [hq] at h
      cases h
    | ok q =>
      rw [hq] at h
      cases term with
      | eof => rfl
      | readErr e2 => cases h

/-- Witness for C9: a run that ends in read error 7 reports exactly that
error, and the success-implies-end-of-stream direction applied to the
empty successful run. -/
theorem c9_eof_success_witness :
    ParseAndForward envTab alwaysOk pingInput (ReadEnd.readErr 7) =
        Except.error (RunErr.readErr 7) ∧
      ReadEnd.eof = ReadEnd.eof :=
  ⟨(c9_eof_success envTab pingInput 7).2.1,
    (c9_eof_success envTab [] 0).2.2 alwaysOk ReadEnd.eof NewClientMessageParser rfl⟩

/-- A step preserves the tie between the bucket reference and the most
recently resolved identity. -/
theorem step_lastLimiter {env : Env} {wOk : Nat → Bool} {p p' : ClientMessageParser} {b : Nat}
    (h : step env wOk p b = Except.ok p')
    (hp : p.rateLimiter = lastLimiter env p.users) :
    p'.rateLimiter = lastLimiter env p'.users := by
  obtain ⟨-, hur, -⟩ := step_spec h
  rcases hur with ⟨hu, hr⟩ | ⟨u, hu, hr⟩
  · rw [hr, hp, hu]
  · rw [hr, hu]
    unfold lastLimiter
    simp

/-- A step preserves the fact that, before any resolution, the bucket
reference is nil and every write so far was unmetered. -/
theorem step_noauth {env : Env} {wOk : Nat → Bool} {p p' : ClientMessageParser} {b : Nat}
    (h : step env wOk p b = Except.ok p')
    (hp : p.users = [] → p.rateLimiter = none ∧ ∀ w ∈ p.writes, w.fst = none) :
    p'.users = [] → p'.rateLimiter = none ∧ ∀ w ∈ p'.writes, w.fst = none := by
  intro hu'
  obtain ⟨-, hur, t, ht, htag⟩ := step_spec h
  rcases hur with ⟨hu, hr⟩ | ⟨u, hu, hr⟩
  · obtain ⟨hrl, hws⟩ := hp (hu ▸ hu')
    refine ⟨by rw [hr, hrl], ?_⟩
    intro w hw
    rw [ht] at hw
    rcases List.mem_append.mp hw with hw | hw
    · exact hws w hw
    · rw [htag w hw, hrl]
  · exfalso
    rw [hu] at hu'
    simp at hu'

/-- Anatomy of a successful whole run: the terminal event was
end-of-stream, and the result is the loop's final state with at most one
residual flush (tagged with the loop-final bucket reference) appended. -/
theorem ParseAndForward_ok {env : Env} {wOk : Nat → Bool} {input : List Nat} {term : ReadEnd}
    {p : ClientMessageParser} (h : ParseAndForward env wOk input term = Except.ok p) :
    term = ReadEnd.eof ∧
    ∃ q, procBytes env wOk NewClientMessageParser input = Except.ok q ∧
      (p = q ∨ p = { q with
                      writes := q.writes ++ [(q.rateLimiter, q.buffer)]
                      wcount := q.wcount + 1
                      buffer := [] }) := by
  unfold ParseAndForward at h
  cases hq : procBytes env wOk NewClientMessageParser input with
  | error e =>
    rw [hq] at h
    cases h
  | ok q =>
    rw [hq] at h
    cases term with
    | readErr e => cases h
    | eof =>
      refine ⟨rfl, q, rfl, ?_⟩
      dsimp only at h
      split_ifs at h with hb
      · cases hw : writeB wOk q q.buffer with
        | ok r =>
          rw [hw] at h
          cases h
          right
          rw [writeB_eq hw]
        | error e =>
          rw [hw] at h
          cases h
      · cases h
        left
        rfl

/-- C3 (amended): on the client-to-upstream flow the active token-bucket
reference starts out nil — there is no default-bandwidth bucket in this
code path, and flushes performed before an identity is resolved happen
with no bucket installed, so no `consume` precedes them; afterwards the
reference always equals the bucket the registry handed out for the most
recently resolved identity, being swapped exactly at the parser
callback's resolutions.  Concretely: any successful run ends with its
bucket reference equal to `lastLimiter` of its resolution history, and a
run that never resolved an identity has a nil reference and only
unmetered writes. -/
theorem c3_limiter_swap :
    (∀ (env : Env) (wOk : Nat → Bool) (input : List Nat) (term : ReadEnd)
        (p : ClientMessageParser),
      ParseAndForward env wOk input term = Except.ok p →
        p.rateLimiter = lastLimiter env p.users) ∧
    (∀ (env : Env) (wOk : Nat → Bool) (input : List Nat) (term : ReadEnd)
        (p : ClientMessageParser),
      ParseAndForward env wOk input term = Except.ok p → p.users = [] →
        p.rateLimiter = none ∧ ∀ w ∈ p.writes, w.fst = none) := by
  constructor
  · intro env wOk input term p h
    obtain ⟨-, q, hq, hpq⟩ := ParseAndForward_ok h
    have hinv : q.rateLimiter = lastLimiter env q.users :=
      procBytes_inv (fun p b p' hs hp => step_lastLimiter hs hp) hq rfl
    rcases hpq with rfl | rfl
    · exact hinv
    · exact hinv
  · intro env wOk input term p h hu
    obtain ⟨-, q, hq, hpq⟩ := ParseAndForward_ok h
    have hinv : q.users = [] → q.rateLimiter = none ∧ ∀ w ∈ q.writes, w.fst = none :=
      procBytes_inv (fun p b p' hs hp => step_noauth hs hp) hq
        (fun _ => ⟨rfl, by simp [NewClientMessageParser]⟩)
    rcases hpq with rfl | rfl
    · exact hinv hu
    · obtain ⟨hrl, hws⟩ := hinv hu
      refine ⟨hrl, ?_⟩
      intro w hw
      rcases List.mem_append.mp hw with hw | hw
      · exact hws w hw
      · rw [List.mem_singleton.mp hw, hrl]

/-- Witness for C3 (amended), at the empty run. -/
theorem c3_limiter_swap_witness :
    NewClientMessageParser.rateLimiter = lastLimiter envTab NewClientMessageParser.users ∧
      (NewClientMessageParser.rateLimiter = none ∧
        ∀ w ∈ NewClientMessageParser.writes, w.fst = none) :=
  ⟨c3_limiter_swap.1 envTab alwaysOk [] ReadEnd.eof NewClientMessageParser rfl,
    c3_limiter_swap.2 envTab alwaysOk [] ReadEnd.eof NewClientMessageParser rfl rfl⟩

/-- C3 counterexample: a lone PING frame forwarded before any identity is
resolved is flushed with a nil bucket reference — the recorded write is
tagged `none`, meaning `RateLimitedWriter.Write` skipped `Wait`
entirely — whereas the claim requires the initial reference to be the
default-bandwidth bucket with `consume(len(bytes))` called before every
flush.  No default bucket exists anywhere in this flow. -/
theorem c3_counterexample :
    ParseAndForward envTab alwaysOk pingInput ReadEnd.eof =
      Except.ok { state := parserState.OP_START, as := 0, drop := 0, rateLimiter := none
                  buffer := [], users := [], writes := [(none, pingInput)], wcount := 1 } :=
  rfl

/-- A granted `Write` call, explicitly. -/
theorem writeB_of_true {wOk : Nat → Bool} {p : ClientMessageParser} (d : List Nat)
    (h : wOk p.wcount = true) :
    writeB wOk p d =
      Except.ok { p with writes := p.writes ++ [(p.rateLimiter, d)], wcount := p.wcount + 1 } := by
  unfold writeB
  rw [if_pos h]

/-- The CR check is inert on any byte other than CR. -/
theorem globalCR_ne13 {b : Nat} (hb : b ≠ 13) (p : ClientMessageParser) :
    globalCR p b = p := by
  unfold globalCR
  exact if_neg (by rintro ⟨-, h⟩; exact hb h)

/-- The boundary check is inert on any byte other than LF. -/
theorem boundaryFlush_ne10 {b : Nat} (hb : b ≠ 10) (wOk : Nat → Bool)
    (p : ClientMessageParser) : boundaryFlush wOk p b = Except.ok p := by
  unfold boundaryFlush
  exact if_neg (by rintro ⟨-, h⟩; exact hb h)

/-- The state switch never touches `drop` on a byte that is neither CR
nor LF. -/
theorem fsmStep_drop_other (env : Env) (p : ClientMessageParser) {b : Nat}
    (hb13 : b ≠ 13) (hb10 : b ≠ 10) : (fsmStep env p b).drop = p.drop := by
  obtain ⟨st, a, dr, rl, buf, us, ws, wc⟩ := p
  cases st
  case CONNECT_ARG =>
    dsimp only [fsmStep]
    rw [if_neg hb13, if_neg hb10]
  all_goals dsimp only [fsmStep] <;> (try split_ifs) <;> rfl

/-- On a CR the state switch leaves `drop` alone or sets it to 1. -/
theorem fsmStep_drop13 (env : Env) (p : ClientMessageParser) :
    (fsmStep env p 13).drop = p.drop ∨ (fsmStep env p 13).drop = 1 := by
  obtain ⟨st, a, dr, rl, buf, us, ws, wc⟩ := p
  cases st
  case CONNECT_ARG =>
    dsimp only [fsmStep]
    rw [if_pos rfl]
    exact Or.inr rfl
  all_goals dsimp only [fsmStep] <;> (try split_ifs) <;> exact Or.inl rfl

/-- On an LF with `drop` clear the state switch leaves `drop` clear. -/
theorem fsmStep_drop10_zero (env : Env) {p : ClientMessageParser} (hd : p.drop = 0) :
    (fsmStep env p 10).drop = 0 := by
  obtain ⟨st, a, dr, rl, buf, us, ws, wc⟩ := p
  cases hd
  cases st
  case CONNECT_ARG =>
    dsimp only [fsmStep]
    rw [if_neg (by omega), if_pos rfl, if_neg (by omega)]
  all_goals dsimp only [fsmStep] <;> (try split_ifs) <;> rfl

/-- Outside `CONNECT_ARG` the state switch only moves the state. -/
theorem fsmStep_nonconnect (env : Env) {p : ClientMessageParser} (b : Nat)
    (hst : p.state ≠ parserState.CONNECT_ARG) :
    (fsmStep env p b).drop = p.drop ∧ (fsmStep env p b).buffer = p.buffer ∧
    (fsmStep env p b).writes = p.writes ∧ (fsmStep env p b).rateLimiter = p.rateLimiter ∧
    (fsmStep env p b).wcount = p.wcount := by
  obtain ⟨st, a, dr, rl, buf, us, ws, wc⟩ := p
  cases st
  case CONNECT_ARG => exact absurd rfl hst
  all_goals dsimp only [fsmStep] <;> (try split_ifs) <;> exact ⟨rfl, rfl, rfl, rfl, rfl⟩

/-- The `CONNECT_ARG`/LF extraction transition, as an equation. -/
theorem fsmStep_connect_lf (env : Env) {p : ClientMessageParser}
    (hst : p.state = parserState.CONNECT_ARG) (hd : p.drop > 0) :
    fsmStep env p 10 =
      { connectResolve env p with drop := 0, state := parserState.OP_START } := by
  obtain ⟨st, a, dr, rl, buf, us, ws, wc⟩ := p
  cases hst
  dsimp only [fsmStep]
  rw [if_neg (by omega), if_pos rfl, if_pos hd]

/-- Below the buffer bound a loop iteration is just its tail. -/
theorem step_eq_stepTail (env : Env) (wOk : Nat → Bool) {p : ClientMessageParser} (b : Nat)
    (hb : p.buffer.length < 4096) : step env wOk p b = stepTail env wOk p b := by
  unfold step
  rw [if_neg (by omega)]

/-- `drop` is preserved by the loop tail on bytes that are neither CR nor
LF. -/
theorem stepTail_drop_other {env : Env} {wOk : Nat → Bool} {p p' : ClientMessageParser}
    {b : Nat} (h : stepTail env wOk p b = Except.ok p') (hb13 : b ≠ 13) (hb10 : b ≠ 10) :
    p'.drop = p.drop := by
  unfold stepTail at h
  rw [globalCR_ne13 hb13, boundaryFlush_ne10 hb10] at h
  cases h
  exact fsmStep_drop_other env _ hb13 hb10

/-- A CR always leaves `drop` set (from either of its two reachable
values). -/
theorem stepTail_drop13 {env : Env} {wOk : Nat → Bool} {p p' : ClientMessageParser}
    (h : stepTail env wOk p 13 = Except.ok p') (hd : p.drop ≤ 1) : p'.drop = 1 := by
  unfold stepTail at h
  rw [boundaryFlush_ne10 (by omega)] at h
  cases h
  have hfs := fsmStep_drop13 env { p with buffer := p.buffer ++ [13] }
  unfold globalCR
  split_ifs with hc
  · rfl
  · rcases hfs with hfs | hfs
    · have hnz : (fsmStep env { p with buffer := p.buffer ++ [13] } 13).drop ≠ 0 :=
        fun h0 => hc ⟨h0, rfl⟩
      dsimp only at hfs
      omega
    · exact hfs

/-- On a byte other than LF the loop tail performs no write. -/
theorem stepTail_writes_other {env : Env} {wOk : Nat → Bool} {p p' : ClientMessageParser}
    {b : Nat} (h : stepTail env wOk p b = Except.ok p') (hb10 : b ≠ 10) :
    p'.writes = p.writes := by
  unfold stepTail at h
  rw [boundaryFlush_ne10 hb10] at h
  cases h
  obtain ⟨gb, gw, -, -, -⟩ :=
    globalCR_plumb (fsmStep env { p with buffer := p.buffer ++ [b] } b) b
  obtain ⟨-, fw, -, -⟩ := fsmStep_plumb env { p with buffer := p.buffer ++ [b] } b
  rw [gw, fw]

/-- An LF with `drop` clear performs no write. -/
theorem stepTail_writes_lf_clear {env : Env} {wOk : Nat → Bool} {p p' : ClientMessageParser}
    (h : stepTail env wOk p 10 = Except.ok p') (hd : p.drop = 0) : p'.writes = p.writes := by
  unfold stepTail at h
  have hd2 : (fsmStep env { p with buffer := p.buffer ++ [10] } 10).drop = 0 :=
    fsmStep_drop10_zero env hd
  rw [globalCR_ne13 (by omega), boundaryFlush_of_neg (by rw [hd2]; omega)] at h
  cases h
  obtain ⟨-, fw, -, -⟩ := fsmStep_plumb env { p with buffer := p.buffer ++ [10] } 10
  rw [fw]

/-- An LF with `drop` set, outside `CONNECT_ARG`: the frame closes, the
whole buffer (the byte included) is flushed tagged with the current
bucket, the buffer resets, `drop` clears and the state returns to
`OP_START`. -/
theorem stepTail_flush_lf {env : Env} {wOk : Nat → Bool} {p : ClientMessageParser}
    (hd : p.drop = 1) (hst : p.state ≠ parserState.CONNECT_ARG) (hw : wOk p.wcount = true) :
    ∃ p', stepTail env wOk p 10 = Except.ok p' ∧
      p'.writes = p.writes ++ [(p.rateLimiter, p.buffer ++ [10])] ∧ p'.buffer = [] ∧
      p'.drop = 0 ∧ p'.state = parserState.OP_START := by
  unfold stepTail
  obtain ⟨fd, fb, fw, fr, fc⟩ :=
    fsmStep_nonconnect env (p := { p with buffer := p.buffer ++ [10] }) 10 hst
  rw [globalCR_ne13 (by omega)]
  unfold boundaryFlush
  rw [if_pos ⟨by rw [fd]; exact hd, rfl⟩]
  rw [writeB_of_true _ (by dsimp only; rw [fc]; exact hw)]
  refine ⟨_, rfl, ?_, rfl, rfl, rfl⟩
  dsimp only
  rw [fw, fr, fb]

/-- An LF with `drop` set inside `CONNECT_ARG`: the frame closes (state
and `drop` reset) but nothing is flushed — the deferred-flush exception
of the CONNECT terminator. -/
theorem stepTail_connect_lf {env : Env} {wOk : Nat → Bool} {p : ClientMessageParser}
    (hd : p.drop = 1) (hst : p.state = parserState.CONNECT_ARG) :
    ∃ p', stepTail env wOk p 10 = Except.ok p' ∧
      p'.writes = p.writes ∧ p'.drop = 0 ∧ p'.state = parserState.OP_START ∧
      p'.buffer = p.buffer ++ [10] := by
  unfold stepTail
  rw [fsmStep_connect_lf env (p := { p with buffer := p.buffer ++ [10] }) hst (by
    dsimp only
    omega)]
  obtain ⟨cb, cw, -, -⟩ := connectResolve_plumb env { p with buffer := p.buffer ++ [10] }
  rw [globalCR_ne13 (by omega), boundaryFlush_of_neg (by dsimp only; decide)]
  exact ⟨_, rfl, cw, rfl, rfl, cb⟩

/-- C8 (amended): the global line-terminator handling works as follows —
a CR sets the remembered `drop` flag; a byte that is neither CR nor LF
leaves the flag unchanged, so it persists across intervening bytes; no
byte other than LF ever closes a frame (no write happens); an LF with the
flag clear does not close the frame; an LF with the flag set closes the
frame and flushes every buffered byte, even when bytes intervened between
the CR and the LF (not only when the LF immediately follows the CR); and,
as the one exception, the LF that terminates a CONNECT argument closes
the frame without an immediate flush (its bytes are flushed by a later
trigger). -/
theorem c8_boundary :
    (∀ (env : Env) (wOk : Nat → Bool) (p p' : ClientMessageParser) (b : Nat),
      step env wOk p b = Except.ok p' → b ≠ 13 → b ≠ 10 → p'.drop = p.drop) ∧
    (∀ (env : Env) (wOk : Nat → Bool) (p p' : ClientMessageParser),
      step env wOk p 13 = Except.ok p' → p.drop ≤ 1 → p'.drop = 1) ∧
    (∀ (env : Env) (wOk : Nat → Bool) (p p' : ClientMessageParser) (b : Nat),
      step env wOk p b = Except.ok p' → p.buffer.length < 4096 → b ≠ 10 →
        p'.writes = p.writes) ∧
    (∀ (env : Env) (wOk : Nat → Bool) (p p' : ClientMessageParser),
      step env wOk p 10 = Except.ok p' → p.buffer.length < 4096 → p.drop = 0 →
        p'.writes = p.writes) ∧
    (∀ (env : Env) (wOk : Nat → Bool) (p : ClientMessageParser),
      p.buffer.length < 4096 → p.drop = 1 → p.state ≠ parserState.CONNECT_ARG →
      wOk p.wcount = true →
      ∃ p', step env wOk p 10 = Except.ok p' ∧
        p'.writes = p.writes ++ [(p.rateLimiter, p.buffer ++ [10])] ∧ p'.buffer = [] ∧
        p'.drop = 0 ∧ p'.state = parserState.OP_START) ∧
    (∀ (env : Env) (wOk : Nat → Bool) (p : ClientMessageParser),
      p.buffer.length < 4096 → p.drop = 1 → p.state = parserState.CONNECT_ARG →
      ∃ p', step env wOk p 10 = Except.ok p' ∧ p'.writes = p.writes ∧
        p'.drop = 0 ∧ p'.state = parserState.OP_START ∧ p'.buffer = p.buffer ++ [10]) := by
  refine ⟨?_, ?_, ?_, ?_, ?_, ?_⟩
  · intro env wOk p p' b h hb13 hb10
    unfold step at h
    split_ifs at h
    · split at h
      · next q hq =>
          have hd := stepTail_drop_other h hb13 hb10
          rw [writeB_eq hq] at hd
          exact hd
      · cases h
    · exact stepTail_drop_other h hb13 hb10
  · intro env wOk p p' h hd
    unfold step at h
    split_ifs at h
    · split at h
      · next q hq =>
          refine stepTail_drop13 h ?_
          rw [writeB_eq hq]
          exact hd
      · cases h
    · exact stepTail_drop13 h hd
  · intro env wOk p p' b h hlen hb10
    rw [step_eq_stepTail env wOk b hlen] at h
    exact stepTail_writes_other h hb10
  · intro env wOk p p' h hlen hd
    rw [step_eq_stepTail env wOk 10 hlen] at h
    exact stepTail_writes_lf_clear h hd
  · intro env wOk p hlen hd hst hw
    rw [step_eq_stepTail env wOk 10 hlen]
    exact stepTail_flush_lf hd hst hw
  · intro env wOk p hlen hd hst
    rw [step_eq_stepTail env wOk 10 hlen]
    exact stepTail_connect_lf hd hst

/-- Witness for C8 (amended): a frame containing the CR at position 1 and
the LF at position 3 (an intervening `B` between them) closes at the LF
and flushes the four buffered bytes. -/
theorem c8_boundary_witness :
    ∃ p', step envTab alwaysOk
        { state := parserState.OP_IGNORE
          as := 0
          drop := 1
          rateLimiter := none
          buffer := [65, 13, 66]
          users := []
          writes := []
          wcount := 0 } 10 = Except.ok p' ∧
      p'.writes = [(none, [65, 13, 66, 10])] ∧ p'.buffer = [] ∧ p'.drop = 0 ∧
      p'.state = parserState.OP_START :=
  c8_boundary.2.2.2.2.1 envTab alwaysOk _ (by decide) rfl (by decide) rfl

/-- Inside `CONNECT_ARG` any byte other than CR and LF leaves the parser
unchanged. -/
theorem fsmStep_connect_other (env : Env) {p : ClientMessageParser}
    (hst : p.state = parserState.CONNECT_ARG) {b : Nat} (hb13 : b ≠ 13) (hb10 : b ≠ 10) :
    fsmStep env p b = p := by
  obtain ⟨st, a, dr, rl, buf, us, ws, wc⟩ := p
  cases hst
  dsimp only [fsmStep]
  rw [if_neg hb13, if_neg hb10]

/-- Accumulation run: inside `CONNECT_ARG` with `drop` clear, a run of
bytes free of CR and LF only accumulates into the buffer (no state
change, no flush, no resolution), as long as the buffer stays within the
4096-byte bound. -/
theorem procBytes_connectArg (env : Env) (wOk : Nat → Bool) :
    ∀ (bs : List Nat) (p : ClientMessageParser),
      p.state = parserState.CONNECT_ARG → p.drop = 0 →
      (∀ b ∈ bs, b ≠ 13 ∧ b ≠ 10) → p.buffer.length + bs.length ≤ 4096 →
      procBytes env wOk p bs = Except.ok { p with buffer := p.buffer ++ bs } := by
  intro bs
  induction bs with
  | nil =>
    intro p _ _ _ _
    simp [procBytes]
  | cons b rest ih =>
    intro p hst hd hb hlen
    obtain ⟨hb13, hb10⟩ := hb b (List.mem_cons_self b rest)
    have hbuf : p.buffer.length < 4096 := by
      simp only [List.length_cons] at hlen
      omega
    have hstep : step env wOk p b = Except.ok { p with buffer := p.buffer ++ [b] } := by
      rw [step_eq_stepTail env wOk b hbuf]
      unfold stepTail
      rw [fsmStep_connect_other env (p := { p with buffer := p.buffer ++ [b] }) hst hb13 hb10,
        globalCR_ne13 hb13, boundaryFlush_ne10 hb10]
    have hrest := ih { p with buffer := p.buffer ++ [b] } hst hd
      (fun x hx => hb x (List.mem_cons_of_mem b hx))
      (by dsimp only
          simp only [List.length_append, List.length_singleton, List.length_cons,
            List.length_nil] at hlen ⊢
          omega)
    simp only [procBytes]
    rw [hstep]
    dsimp only
    rw [hrest]
    dsimp only
    rw [show (p.buffer ++ [b]) ++ rest = p.buffer ++ b :: rest by simp]

/-- C8 counterexample: on the four bytes `A` CR `B` LF the LF does not
immediately follow the CR, so by the claim no frame would close and no
flush would happen; the code remembers the CR across the intervening `B`
and closes and flushes the whole frame at the LF (one write, empty
residual buffer). -/
theorem c8_counterexample :
    procBytes envTab alwaysOk NewClientMessageParser crSplitInput =
      Except.ok { state := parserState.OP_START, as := 0, drop := 0, rateLimiter := none
                  buffer := [], users := [], writes := [(none, crSplitInput)], wcount := 1 } :=
  rfl

/-- C1: evaluation of the code at the failing input.  The current
`ClientMessageParser` has no payload countdown at all (both branches of
its `OP_PUB`/`OP_HPUB` cases move to `OP_IGNORE` and the declared byte
count is never read), so after the control line `PUB a 23` CR LF the
frame closes at the control line's CR LF and the 23 payload bytes —
spelling a CONNECT control line — are re-parsed as protocol bytes: the
identity callback fires with `evil` and that bucket is installed.  The
earlier `NATSProxyParser` revision does have a `psMsgPayload` countdown,
but its completion test `len(buf) >= p.as + p.payload + 2` counts from
the argument offset instead of the payload start, so on
`PUB a 3` CR LF `XYZ` CR LF it closes the frame after a single payload
byte and re-parses the remaining payload bytes in `psOpStart`. -/
theorem c1_no_payload_skip :
    okUsers (ParseAndForward envTab alwaysOk pubEvilInput ReadEnd.eof) = some ["evil"] ∧
      okWrites (ParseAndForward envTab alwaysOk pubEvilInput ReadEnd.eof) =
        some [(none, asciiBytes ("PUB a 23\r\n")),
          (some 1, connectPrefix ++ evilJson ++ [13, 10])] ∧
      (npRun pub3Input).writes = [asciiBytes ("PUB a 3\r\nX"), asciiBytes ("YZ\r\n")] :=
  ⟨rfl, rfl, rfl⟩

/-- Splitting of the over-long CONNECT line at the buffer boundary. -/
theorem longConnect_split :
    longConnectInput = (connectPrefix ++ [97]) ++
      (List.replicate 4087 97 ++ ([97] ++ (List.replicate 7 97 ++ (evilJson ++ [13, 10])))) := by
  unfold longConnectInput
  rw [show (List.replicate 4096 97 : List Nat)
      = List.replicate 1 97 ++ (List.replicate 4087 97 ++ (List.replicate 1 97
          ++ List.replicate 7 97)) by
    rw [show (4096 : Nat) = 1 + (4087 + (1 + 7)) from by norm_num, List.replicate_add,
      List.replicate_add, List.replicate_add]]
  simp only [List.replicate_one, List.append_assoc]

/-- The loop run over the over-long CONNECT line, in four stages: the
prefix and first filler byte, 4087 accumulated filler bytes, the
mid-line full-buffer flush, and the closed tail with the resolution. -/
theorem longConnect_run :
    procBytes envTab alwaysOk NewClientMessageParser longConnectInput =
      Except.ok longConnectFinal := by
  have hcp9 : (connectPrefix ++ [97]).length = 9 := rfl
  have s1 : procBytes envTab alwaysOk NewClientMessageParser (connectPrefix ++ [97]) =
      Except.ok (caState 0 (connectPrefix ++ [97])) := rfl
  have s2 : procBytes envTab alwaysOk (caState 0 (connectPrefix ++ [97]))
      (List.replicate 4087 97) =
      Except.ok (caState 0 ((connectPrefix ++ [97]) ++ List.replicate 4087 97)) := by
    have h := procBytes_connectArg envTab alwaysOk (List.replicate 4087 97)
      (caState 0 (connectPrefix ++ [97])) rfl rfl
      (by intro x hx
          rw [(List.eq_of_mem_replicate hx : x = 97)]
          omega)
      (by dsimp only [caState]
          rw [hcp9, List.length_replicate])
    exact h
  have s3 : step envTab alwaysOk
      (caState 0 ((connectPrefix ++ [97]) ++ List.replicate 4087 97)) 97 =
      Except.ok { state := parserState.CONNECT_ARG
                  as := 8
                  drop := 0
                  rateLimiter := none
                  buffer := [97]
                  users := []
                  writes := [(none, (connectPrefix ++ [97]) ++ List.replicate 4087 97)]
                  wcount := 1 } := by
    unfold step
    rw [if_pos (by
      dsimp only [caState]
      rw [List.length_append, hcp9, List.length_replicate])]
    rw [writeB_alwaysOk]
    dsimp only
    unfold stepTail
    rw [fsmStep_connect_other envTab rfl (by omega) (by omega), globalCR_ne13 (by omega),
      boundaryFlush_ne10 (by omega)]
    rfl
  have s4 : procBytes envTab alwaysOk
      { state := parserState.CONNECT_ARG
        as := 8
        drop := 0
        rateLimiter := none
        buffer := [97]
        users := []
        writes := [(none, (connectPrefix ++ [97]) ++ List.replicate 4087 97)]
        wcount := 1 }
      (List.replicate 7 97 ++ (evilJson ++ [13, 10])) =
      Except.ok longConnectFinal := rfl
  rw [longConnect_split, procBytes_append, s1]
  dsimp only
  rw [procBytes_append, s2]
  dsimp only
  exact procBytes_cons_ok s3 s4

/-- The whole-run result for the over-long CONNECT line: the residual 25
buffered bytes are flushed at end-of-stream, metered against the bucket
resolved from the stale window. -/
theorem longConnect_whole :
    ParseAndForward envTab alwaysOk longConnectInput ReadEnd.eof =
      Except.ok { state := parserState.OP_START
                  as := 8
                  drop := 0
                  rateLimiter := some 1
                  buffer := []
                  users := ["evil"]
                  writes := [(none, (connectPrefix ++ [97]) ++ List.replicate 4087 97),
                    (some 1, ([97] ++ List.replicate 7 97) ++ evilJson ++ [13, 10])]
                  wcount := 2 } := by
  unfold ParseAndForward
  rw [longConnect_run]
  dsimp only
  rw [if_pos (by decide), writeB_alwaysOk]
  rfl

/-- C10 (counterexample): a CONNECT control line of more than 4096 bytes
is forwarded, but — contrary to the claim — an identity IS extracted for
the frame: the argument slice is taken from the stale window of the
refilled buffer, the callback fires with `"evil"`, and the active rate
limiter is swapped to that user's bucket. -/
theorem c10_counterexample :
    4096 < longConnectInput.length ∧
    okUsers (ParseAndForward envTab alwaysOk longConnectInput ReadEnd.eof) = some ["evil"] ∧
    okLimiter (ParseAndForward envTab alwaysOk longConnectInput ReadEnd.eof) =
      some (some 1) := by
  refine ⟨?_, by rw [longConnect_whole]; rfl, by rw [longConnect_whole]; rfl⟩
  unfold longConnectInput
  simp only [List.length_append, List.length_replicate]
  have h1 : connectPrefix.length = 8 := rfl
  have h2 : evilJson.length = 15 := rfl
  have h3 : ([13, 10] : List Nat).length = 2 := rfl
  omega

/-- C10 (amended): when a CONNECT control line overflows the fixed
4096-byte buffer, the full buffer is flushed mid-line and every byte of
the frame is still forwarded unchanged and in order; but identity
extraction is not suppressed: on the terminating LF the parser slices
the refilled buffer from the remembered argument offset, so a stale
window of the line can decode as a JSON object and resolve an identity,
invoking the callback and swapping the active rate limiter. -/
theorem c10_long_connect :
    okOutput (ParseAndForward envTab alwaysOk longConnectInput ReadEnd.eof) =
      some longConnectInput ∧
    okUsers (ParseAndForward envTab alwaysOk longConnectInput ReadEnd.eof) = some ["evil"] ∧
    okLimiter (ParseAndForward envTab alwaysOk longConnectInput ReadEnd.eof) =
      some (some 1) := by
  refine ⟨?_, by rw [longConnect_whole]; rfl, by rw [longConnect_whole]; rfl⟩
  rw [longConnect_whole, longConnect_split]
  simp only [okOutput, forwardedBytes, longConnectFinal, List.map_cons, List.map_nil,
    List.flatten_cons, List.flatten_nil, List.append_nil, List.append_assoc]

/-! ## Registry lemmas: association-list facts and the call-sequence
invariants -/

/-- A key found on the left of an append is found in the whole list. -/
theorem alookup_append_left {α : Type} {l1 : List (String × α)} {u : String} {b : α}
    (h : alookup l1 u = some b) (l2 : List (String × α)) :
    alookup (l1 ++ l2) u = some b := by
  induction l1 with
  | nil => exact absurd h (by simp [alookup])
  | cons kv rest ih =>
    obtain ⟨k, w⟩ := kv
    simp only [alookup, List.cons_append] at h ⊢
    by_cases hk : k = u
    · rw [if_pos hk] at h ⊢
      exact h
    · rw [if_neg hk] at h ⊢
      exact ih h

/-- A key absent on the left of an append is looked up on the right. -/
theorem alookup_append_right {α : Type} {l1 : List (String × α)} {u : String}
    (h : alookup l1 u = none) (l2 : List (String × α)) :
    alookup (l1 ++ l2) u = alookup l2 u := by
  induction l1 with
  | nil => rfl
  | cons kv rest ih =>
    obtain ⟨k, w⟩ := kv
    simp only [alookup, List.cons_append] at h ⊢
    by_cases hk : k = u
    · rw [if_pos hk] at h
      cases h
    · rw [if_neg hk] at h ⊢
      exact ih h

/-- Filtering out another key does not change a lookup. -/
theorem alookup_filter_ne {α : Type} (l : List (String × α)) {u v : String} (huv : u ≠ v) :
    alookup (l.filter (fun kv => kv.fst ≠ v)) u = alookup l u := by
  induction l with
  | nil => rfl
  | cons kv rest ih =>
    obtain ⟨k, w⟩ := kv
    by_cases hk : k = v
    · rw [show ((k, w) :: rest).filter (fun kv => kv.fst ≠ v)
          = rest.filter (fun kv => kv.fst ≠ v) by simp [List.filter_cons, hk], ih]
      simp only [alookup]
      rw [if_neg (fun h => huv (hk ▸ h).symm)]
    · rw [show ((k, w) :: rest).filter (fun kv => kv.fst ≠ v)
          = (k, w) :: rest.filter (fun kv => kv.fst ≠ v) by simp [List.filter_cons, hk]]
      simp only [alookup]
      by_cases hku : k = u
      · rw [if_pos hku, if_pos hku]
      · rw [if_neg hku, if_neg hku, ih]

/-- A key that looks up to nothing heads no entry. -/
theorem alookup_none_ne {α : Type} {l : List (String × α)} {u : String}
    (h : alookup l u = none) : ∀ p ∈ l, p.fst ≠ u := by
  induction l with
  | nil => intro p hp; cases hp
  | cons kv rest ih =>
    obtain ⟨k, w⟩ := kv
    simp only [alookup] at h
    by_cases hk : k = u
    · rw [if_pos hk] at h
      cases h
    · rw [if_neg hk] at h
      intro p hp
      rcases List.mem_cons.mp hp with h' | h'
      · rw [h']
        exact hk
      · exact ih h p h'

/-- A successful lookup exhibits a stored entry. -/
theorem alookup_mem {α : Type} {l : List (String × α)} {u : String} {b : α}
    (h : alookup l u = some b) : (u, b) ∈ l := by
  induction l with
  | nil => cases h
  | cons kv rest ih =>
    obtain ⟨k, w⟩ := kv
    simp only [alookup] at h
    by_cases hk : k = u
    · rw [if_pos hk] at h
      injection h with h
      exact List.mem_cons.mpr (Or.inl (by rw [hk, h]))
    · rw [if_neg hk] at h
      exact List.mem_cons.mpr (Or.inr (ih h))

/-- Looking up the key of a singleton list. -/
theorem alookup_single_self {α : Type} (u : String) (b : α) :
    alookup [(u, b)] u = some b := by
  simp [alookup]

/-- `GetLimiter` keeps the key list duplicate free. -/
theorem getLimiter_keys {rlm : RateLimiterManager}
    (h : (rlm.limiters.map Prod.fst).Nodup) (u : String) :
    (((GetLimiter rlm u).snd).limiters.map Prod.fst).Nodup := by
  unfold GetLimiter
  by_cases hu : u = ""
  · rw [if_pos hu]
    exact h
  · rw [if_neg hu]
    cases hl : alookup rlm.limiters u with
    | some limiter => exact h
    | none =>
      dsimp only
      rw [List.map_append]
      refine List.Nodup.append h (List.nodup_singleton _) ?_
      intro a ha ha'
      rcases List.mem_map.mp ha with ⟨p, hp, hpa⟩
      simp only [List.map_cons, List.map_nil, List.mem_singleton] at ha'
      exact alookup_none_ne hl p hp (hpa.trans ha')

/-- `RemoveLimiter` keeps the key list duplicate free. -/
theorem removeLimiter_keys {rlm : RateLimiterManager}
    (h : (rlm.limiters.map Prod.fst).Nodup) (u : String) :
    (((RemoveLimiter rlm u).limiters).map Prod.fst).Nodup :=
  ((List.filter_sublist _).map Prod.fst).nodup h

/-- Any call sequence from a fresh manager keeps the key list duplicate
free. -/
theorem runReg_keys (cfg : Config) (ops : List RegOp) :
    (((runReg (NewRateLimiterManager cfg) ops).limiters).map Prod.fst).Nodup := by
  suffices h : ∀ rlm : RateLimiterManager, (rlm.limiters.map Prod.fst).Nodup →
      (((runReg rlm ops).limiters).map Prod.fst).Nodup from
    h _ (by simp [NewRateLimiterManager])
  induction ops with
  | nil => exact fun rlm h => h
  | cons op rest ih =>
    intro rlm h
    refine ih (applyOp rlm op) ?_
    cases op with
    | get u => exact getLimiter_keys h u
    | remove u => exact removeLimiter_keys h u

/-- One registry call that is not `RemoveLimiter u` preserves `u`'s
stored bucket. -/
theorem applyOp_stable {rlm : RateLimiterManager} {u : String} {b : Bucket}
    (hb : alookup rlm.limiters u = some b) {op : RegOp} (hop : op ≠ RegOp.remove u) :
    alookup (applyOp rlm op).limiters u = some b := by
  cases op with
  | get v =>
    unfold applyOp GetLimiter
    dsimp only
    by_cases hv : v = ""
    · rw [if_pos hv]
      exact hb
    · rw [if_neg hv]
      cases hl : alookup rlm.limiters v with
      | some limiter => exact hb
      | none =>
        dsimp only
        exact alookup_append_left hb _
  | remove v =>
    have hvu : u ≠ v := fun h' => hop (by rw [h'])
    unfold applyOp RemoveLimiter
    dsimp only
    rw [alookup_filter_ne _ hvu]
    exact hb

/-- A call sequence free of `RemoveLimiter u` preserves `u`'s stored
bucket. -/
theorem runReg_stable {u : String} {b : Bucket} {ops : List RegOp}
    (hno : ∀ op ∈ ops, op ≠ RegOp.remove u) {rlm : RateLimiterManager}
    (hb : alookup rlm.limiters u = some b) :
    alookup (runReg rlm ops).limiters u = some b := by
  induction ops generalizing rlm with
  | nil => exact hb
  | cons op rest ih =>
    exact ih (fun o ho => hno o (List.mem_cons_of_mem _ ho))
      (applyOp_stable hb (hno op (List.mem_cons_self op rest)))

/-- One registry call preserves the bucket-sizing invariant. -/
theorem applyOp_sized {cfg : Config} {rlm : RateLimiterManager} (h : sizedOk cfg rlm)
    (op : RegOp) : sizedOk cfg (applyOp rlm op) := by
  obtain ⟨hc, hall⟩ := h
  cases op with
  | get v =>
    unfold applyOp GetLimiter
    dsimp only
    by_cases hv : v = ""
    · rw [if_pos hv]
      exact ⟨hc, hall⟩
    · rw [if_neg hv]
      cases hl : alookup rlm.limiters v with
      | some limiter => exact ⟨hc, hall⟩
      | none =>
        dsimp only
        refine ⟨hc, ?_⟩
        intro p hp
        rcases List.mem_append.mp hp with h' | h'
        · exact hall p h'
        · rcases List.mem_singleton.mp h' with rfl
          exact ⟨by dsimp only; rw [hc], by dsimp only; rw [hc]⟩
  | remove v =>
    unfold applyOp RemoveLimiter
    refine ⟨hc, ?_⟩
    intro p hp
    exact hall p (List.mem_of_mem_filter hp)

/-- Any call sequence from a fresh manager satisfies the bucket-sizing
invariant. -/
theorem runReg_sized (cfg : Config) (ops : List RegOp) :
    sizedOk cfg (runReg (NewRateLimiterManager cfg) ops) := by
  suffices h : ∀ rlm : RateLimiterManager, sizedOk cfg rlm →
      sizedOk cfg (runReg rlm ops) from
    h _ ⟨rfl, fun p hp => absurd hp (List.not_mem_nil p)⟩
  induction ops with
  | nil => exact fun rlm h => h
  | cons op rest ih => exact fun rlm h => ih (applyOp rlm op) (applyOp_sized h op)

/-! ## The interleaved creation race -/

/-- The read-locked lookup of an unseen non-empty username misses. -/
theorem taskStep_start_empty {u : String} (hu : u ≠ "") (cfg : Config) :
    taskStep u { limiters := [], config := cfg, nextId := 0 } TaskPc.start =
      (TaskPc.missed, { limiters := [], config := cfg, nextId := 0 }) := by
  unfold taskStep
  rw [if_neg hu]
  rfl

/-- The write-locked double check of a still-unseen username creates and
stores the bucket. -/
theorem taskStep_missed_empty (u : String) (cfg : Config) :
    taskStep u { limiters := [], config := cfg, nextId := 0 } TaskPc.missed =
      (TaskPc.done (some (bwBucket cfg u)),
        { limiters := [(u, bwBucket cfg u)], config := cfg, nextId := 1 }) := rfl

/-- The read-locked lookup of a stored username returns its bucket. -/
theorem taskStep_start_stored {u : String} (hu : u ≠ "") (R : RateLimiterManager)
    {b : Bucket} (hb : alookup R.limiters u = some b) :
    taskStep u R TaskPc.start = (TaskPc.done (some b), R) := by
  unfold taskStep
  rw [if_neg hu, hb]

/-- The write-locked double check of a meanwhile-stored username returns
the stored bucket without creating another. -/
theorem taskStep_missed_stored (u : String) (R : RateLimiterManager)
    {b : Bucket} (hb : alookup R.limiters u = some b) :
    taskStep u R TaskPc.missed = (TaskPc.done (some b), R) := by
  unfold taskStep
  rw [hb]

/-- One scheduled atomic section preserves the race invariant. -/
theorem concStep_inv {u : String} {cfg : Config} {s : ConcSys} (hu : u ≠ "")
    (h : concInv u cfg s) (who : Bool) : concInv u cfg (concStep u s who) := by
  obtain ⟨⟨lims, pcfg, nid⟩, pc1, pc2⟩ := s
  unfold concInv at h ⊢
  dsimp only at h ⊢
  obtain ⟨hcfg, hcase⟩ := h
  subst hcfg
  unfold concStep
  rcases hcase with ⟨hl, hn, hp1, hp2⟩ | ⟨hl, hn, hp1, hp2⟩ <;> subst hl <;> subst hn
  · cases who
    · rw [if_neg (by decide)]
      unfold pcLive at hp2
      rcases hp2 with h2 | h2 <;> subst h2
      · rw [taskStep_start_empty hu]
        exact ⟨rfl, Or.inl ⟨rfl, rfl, hp1, Or.inr rfl⟩⟩
      · rw [taskStep_missed_empty]
        refine ⟨rfl, Or.inr ⟨rfl, rfl, ?_, Or.inr (Or.inr rfl)⟩⟩
        unfold pcLive at hp1
        unfold pcShares
        rcases hp1 with h1 | h1
        · exact Or.inl h1
        · exact Or.inr (Or.inl h1)
    · rw [if_pos rfl]
      unfold pcLive at hp1
      rcases hp1 with h1 | h1 <;> subst h1
      · rw [taskStep_start_empty hu]
        exact ⟨rfl, Or.inl ⟨rfl, rfl, Or.inr rfl, hp2⟩⟩
      · rw [taskStep_missed_empty]
        refine ⟨rfl, Or.inr ⟨rfl, rfl, Or.inr (Or.inr rfl), ?_⟩⟩
        unfold pcLive at hp2
        unfold pcShares
        rcases hp2 with h2 | h2
        · exact Or.inl h2
        · exact Or.inr (Or.inl h2)
  · cases who
    · rw [if_neg (by decide)]
      unfold pcShares at hp2
      rcases hp2 with h2 | h2 | h2 <;> subst h2
      · rw [taskStep_start_stored hu _ (alookup_single_self u (bwBucket pcfg u))]
        exact ⟨rfl, Or.inr ⟨rfl, rfl, hp1, Or.inr (Or.inr rfl)⟩⟩
      · rw [taskStep_missed_stored u _ (alookup_single_self u (bwBucket pcfg u))]
        exact ⟨rfl, Or.inr ⟨rfl, rfl, hp1, Or.inr (Or.inr rfl)⟩⟩
      · exact ⟨rfl, Or.inr ⟨rfl, rfl, hp1, Or.inr (Or.inr rfl)⟩⟩
    · rw [if_pos rfl]
      unfold pcShares at hp1
      rcases hp1 with h1 | h1 | h1 <;> subst h1
      · rw [taskStep_start_stored hu _ (alookup_single_self u (bwBucket pcfg u))]
        exact ⟨rfl, Or.inr ⟨rfl, rfl, Or.inr (Or.inr rfl), hp2⟩⟩
      · rw [taskStep_missed_stored u _ (alookup_single_self u (bwBucket pcfg u))]
        exact ⟨rfl, Or.inr ⟨rfl, rfl, Or.inr (Or.inr rfl), hp2⟩⟩
      · exact ⟨rfl, Or.inr ⟨rfl, rfl, Or.inr (Or.inr rfl), hp2⟩⟩

/-- The race invariant holds along any schedule. -/
theorem foldl_concStep_inv {u : String} {cfg : Config} (hu : u ≠ "") :
    ∀ (sched : List Bool) (s : ConcSys), concInv u cfg s →
      concInv u cfg (sched.foldl (concStep u) s)
  | [], _, h => h
  | who :: rest, s, h => foldl_concStep_inv hu rest _ (concStep_inv hu h who)

/-- The race invariant holds of every reachable state of the two-task
run. -/
theorem concRun_inv (u : String) (cfg : Config) (sched : List Bool) (hu : u ≠ "") :
    concInv u cfg (concRun u cfg sched) := by
  unfold concRun
  refine foldl_concStep_inv hu sched _ ?_
  unfold concInv pcLive
  exact ⟨rfl, Or.inl ⟨rfl, rfl, Or.inl rfl, Or.inl rfl⟩⟩

/-- C5: two concurrent first-time `GetLimiter` calls for the same
non-empty unseen username, under any interleaving of their atomic locked
sections, never create two distinct buckets: whenever both calls have
returned, both returned the same bucket, and the registry retains
exactly that one bucket. -/
theorem c5_no_double_create (u : String) (cfg : Config) (sched : List Bool)
    (r1 r2 : Option Bucket) (hu : u ≠ "")
    (h1 : (concRun u cfg sched).pc1 = TaskPc.done r1)
    (h2 : (concRun u cfg sched).pc2 = TaskPc.done r2) :
    ∃ b : Bucket, r1 = some b ∧ r2 = some b ∧
      (concRun u cfg sched).rlm.limiters = [(u, b)] := by
  have hinv := concRun_inv u cfg sched hu
  unfold concInv at hinv
  obtain ⟨-, hcase⟩ := hinv
  rcases hcase with ⟨-, -, hp1, -⟩ | ⟨hl, -, hp1, hp2⟩
  · unfold pcLive at hp1
    rcases hp1 with h' | h' <;> rw [h'] at h1 <;> cases h1
  · refine ⟨bwBucket cfg u, ?_, ?_, hl⟩
    · unfold pcShares at hp1
      rcases hp1 with h' | h' | h' <;> rw [h'] at h1
      · cases h1
      · cases h1
      · exact TaskPc.done.inj h1.symm
    · unfold pcShares at hp2
      rcases hp2 with h' | h' | h' <;> rw [h'] at h2
      · cases h2
      · cases h2
      · exact TaskPc.done.inj h2.symm

/-- C5 witness: a concrete full interleaving — both tasks miss the read
lock check, the first creates, the second's double check returns the
stored bucket. -/
theorem c5_no_double_create_witness :
    ∃ b : Bucket,
      (some { id := 0, rate := 5242880, capacity := 5242880 } : Option Bucket) = some b ∧
      (some { id := 0, rate := 5242880, capacity := 5242880 } : Option Bucket) = some b ∧
      (concRun "alice" cfgFix [true, false, true, false]).rlm.limiters =
        [("alice", b)] :=
  c5_no_double_create "alice" cfgFix [true, false, true, false]
    (some { id := 0, rate := 5242880, capacity := 5242880 })
    (some { id := 0, rate := 5242880, capacity := 5242880 })
    (by decide) (by decide) (by decide)

/-- C6: registry invariant — after any call sequence from a fresh
manager the key list is duplicate free (at most one bucket per
username); the bucket `GetLimiter` returns for a non-empty username is
exactly the bucket the map then stores; and across any further call
sequence containing no removal of `u`, `GetLimiter u` keeps returning
the identical stored bucket. -/
theorem c6_registry_invariant (cfg : Config) (ops : List RegOp) :
    ((((runReg (NewRateLimiterManager cfg) ops).limiters).map Prod.fst).Nodup) ∧
    (∀ (rlm : RateLimiterManager) (u : String) (b : Bucket), u ≠ "" →
      (GetLimiter rlm u).fst = some b →
      alookup ((GetLimiter rlm u).snd).limiters u = some b) ∧
    (∀ (rlm : RateLimiterManager) (u : String) (b : Bucket) (tail : List RegOp), u ≠ "" →
      alookup rlm.limiters u = some b →
      (∀ op ∈ tail, op ≠ RegOp.remove u) →
      (GetLimiter (runReg rlm tail) u).fst = some b) := by
  refine ⟨runReg_keys cfg ops, ?_, ?_⟩
  · intro rlm u b hu hb
    unfold GetLimiter at hb ⊢
    rw [if_neg hu] at hb ⊢
    cases hl : alookup rlm.limiters u with
    | some limiter =>
      rw [hl] at hb
      dsimp only at hb ⊢
      rw [hl]
      exact hb
    | none =>
      rw [hl] at hb
      dsimp only at hb ⊢
      rw [alookup_append_right hl, alookup_single_self]
      exact hb
  · intro rlm u b tail hu hb hno
    have h1 := runReg_stable hno hb
    unfold GetLimiter
    rw [if_neg hu, h1]

/-- C6 witness: the invariant instantiated at the sample configuration
and a concrete call sequence mixing creations and a removal. -/
theorem c6_registry_invariant_witness :
    ((((runReg (NewRateLimiterManager cfgFix)
        [RegOp.get "alice", RegOp.get "bob", RegOp.remove "alice",
          RegOp.get "alice"]).limiters).map Prod.fst).Nodup) ∧
    (∀ (rlm : RateLimiterManager) (u : String) (b : Bucket), u ≠ "" →
      (GetLimiter rlm u).fst = some b →
      alookup ((GetLimiter rlm u).snd).limiters u = some b) ∧
    (∀ (rlm : RateLimiterManager) (u : String) (b : Bucket) (tail : List RegOp), u ≠ "" →
      alookup rlm.limiters u = some b →
      (∀ op ∈ tail, op ≠ RegOp.remove u) →
      (GetLimiter (runReg rlm tail) u).fst = some b) :=
  c6_registry_invariant cfgFix
    [RegOp.get "alice", RegOp.get "bob", RegOp.remove "alice", RegOp.get "alice"]

/-- C7: `GetLimiter` with the empty username returns a nil bucket and an
unchanged manager; for every non-empty username and every manager
reachable by registry calls from a fresh one, the returned bucket's
refill rate and capacity both equal the configured user bandwidth when
the user is present in the configuration map and the default bandwidth
otherwise. -/
theorem c7_get_limiter (cfg : Config) (ops : List RegOp) (u : String) (b : Bucket)
    (hu : u ≠ "")
    (hb : (GetLimiter (runReg (NewRateLimiterManager cfg) ops) u).fst = some b) :
    (∀ rlm : RateLimiterManager, GetLimiter rlm "" = (none, rlm)) ∧
    b.rate = getBandwidthForUser cfg u ∧ b.capacity = getBandwidthForUser cfg u := by
  obtain ⟨hc, hall⟩ := runReg_sized cfg ops
  refine ⟨fun rlm => by unfold GetLimiter; rw [if_pos rfl], ?_⟩
  unfold GetLimiter at hb
  rw [if_neg hu] at hb
  cases hl : alookup (runReg (NewRateLimiterManager cfg) ops).limiters u with
  | some limiter =>
    rw [hl] at hb
    dsimp only at hb
    injection hb with hb
    have hsz := hall (u, limiter) (alookup_mem hl)
    rw [hb] at hsz
    exact hsz
  | none =>
    rw [hl] at hb
    dsimp only at hb
    injection hb with hb
    rw [← hb]
    exact ⟨by dsimp only; rw [hc], by dsimp only; rw [hc]⟩

/-- C7 witness: the first `GetLimiter "alice"` on a fresh manager built
from the sample configuration returns alice's configured 5 MiB/s sizing. -/
theorem c7_get_limiter_witness :
    (∀ rlm : RateLimiterManager, GetLimiter rlm "" = (none, rlm)) ∧
    ({ id := 0, rate := 5242880, capacity := 5242880 } : Bucket).rate =
      getBandwidthForUser cfgFix "alice" ∧
    ({ id := 0, rate := 5242880, capacity := 5242880 } : Bucket).capacity =
      getBandwidthForUser cfgFix "alice" :=
  c7_get_limiter cfgFix [] "alice" { id := 0, rate := 5242880, capacity := 5242880 }
    (by decide) (by decide)

end NatsProxy